import Mathlib

/-!
Verification development for the consumer-side service-reference resolution
core of dubbo-go (URL descriptor, reference resolver, nacos service-discovery
adapter).  The Go sources are shallowly embedded: `url.Values` becomes an
association list from keys to value lists (Go maps have no observable order;
`Values.Encode` sorts keys, which is modelled explicitly where needed),
machine integers become `Int`/`Nat`, fallible operations return `Option` or
`Except`.  URL `attributes` and `SubURL` carry no observable behaviour for the
properties below and are omitted from the record.
-/

namespace DubboGo

/-! ## Constants (common/constant)

String keys mirror the repository's `common/constant` package; the constant
package itself is not among the embedded sources, so the values are the ones
documented by the spec (§6 recognized parameter keys, §4.4, mesh rewrite). -/

def LoadbalanceKey : String := "loadbalance"

def ClusterKey : String := "cluster"

def RetriesKey : String := "retries"

def TimeoutKey : String := "timeout"

def TimestampKey : String := "timestamp"

def RemoteTimestampKey : String := "remote.timestamp"

def InterfaceKey : String := "interface"

def GroupKey : String := "group"

def VersionKey : String := "version"

def RegistryGroupKey : String := "registry.group"

/-! ## url.Values (net/url), as used by URL.params

Represented as an association list `List (String × List String)`.  A Go map
has unique keys and no observable entry order; theorems assume uniqueness via
`wfValues`, and map assignment is modelled as remove-then-append (order is
immaterial: reads take the unique matching entry, and `Values.Encode` sorts
keys before formatting). -/

abbrev Values := List (String × List String)

/-- `url.Values.Get`: first value mapped to the key, `""` when absent or the
value slice is empty. -/
def valuesGet (ps : Values) (k : String) : String :=
  match ps.find? (fun e => e.1 == k) with
  | some e => e.2.headD ""
  | none => ""

/-- Go map assignment `params[key] = v`. -/
def valuesSet (ps : Values) (k : String) (v : List String) : Values :=
  ps.filter (fun e => e.1 != k) ++ [(k, v)]

/-- Well-formed `url.Values`: unique keys (a Go map invariant) and no empty
value slices (an empty slice would make `RangeParams` read `v[0]` out of
range). -/
def wfValues (ps : Values) : Prop :=
  (ps.map Prod.fst).Nodup ∧ ∀ e ∈ ps, e.2 ≠ []

theorem find?_filter_of_imp {α : Type} (l : List α) (p q : α → Bool)
    (h : ∀ x, p x = true → q x = true) :
    (l.filter q).find? p = l.find? p := by
  induction l with
  | nil => rfl
  | cons x xs ih =>
    by_cases hp : p x = true
    · rw [List.filter_cons, if_pos (h x hp)]
      simp [List.find?, hp, ih]
    · rw [List.filter_cons]
      by_cases hq : q x = true
      · simp only [if_pos hq, List.find?, hp]
        simpa [Bool.not_eq_true] using ih
      · simp only [if_neg hq, List.find?, hp]
        simpa [Bool.not_eq_true] using ih

theorem valuesGet_valuesSet (ps : Values) (k : String) (v : List String)
    (k' : String) :
    valuesGet (valuesSet ps k v) k' =
      if k' = k then v.headD "" else valuesGet ps k' := by
  unfold valuesGet valuesSet
  by_cases hk : k' = k
  · subst hk
    have hnone : (ps.filter (fun e => e.1 != k')).find? (fun e => e.1 == k') = none := by
      rw [List.find?_eq_none]
      intro e he
      have := List.of_mem_filter he
      simpa using this
    rw [List.find?_append, hnone]
    simp [List.find?]
  · have hone : List.find? (fun e => e.1 == k') [(k, v)] = none := by
      rw [List.find?_eq_none]
      intro e he
      have heq : e = (k, v) := by simpa using he
      subst heq
      intro h
      have hkk : k = k' := by simpa using h
      exact hk hkk.symm
    have hfind : ((ps.filter (fun e => e.1 != k)) ++ [(k, v)]).find? (fun e => e.1 == k') =
        ps.find? (fun e => e.1 == k') := by
      rw [List.find?_append, hone, Option.or_none, find?_filter_of_imp ps _ _ ?_]
      intro e hpe
      have he : e.1 = k' := by simpa using hpe
      simp [he, hk]
    rw [hfind, if_neg hk]

theorem valuesGet_nil (k : String) : valuesGet [] k = "" := rfl

/-! ## URL (common, part_001)

Fields follow the Go struct `URL`; `attributes` (in-process only) and `SubURL`
are not modelled, `noCopy` and the locks have no sequential content. -/

structure URL where
  Protocol : String := ""
  Location : String := ""
  Ip : String := ""
  Port : String := ""
  PrimitiveURL : String := ""
  params : Values := []
  Path : String := ""
  Username : String := ""
  Password : String := ""
  Methods : List String := []
  deriving Repr, DecidableEq

/-- `URL.GetParam`: value for the key, or the default when missing/empty. -/
def URL.GetParam (c : URL) (s d : String) : String :=
  let r := valuesGet c.params s
  if r = "" then d else r

/-- `URL.GetNonDefaultParam`: the value and whether it is non-empty. -/
def URL.GetNonDefaultParam (c : URL) (s : String) : String × Bool :=
  let r := valuesGet c.params s
  (r, r != "")

theorem URL.getParam_empty (c : URL) (k : String) :
    c.GetParam k "" = valuesGet c.params k := by
  unfold URL.GetParam
  by_cases h : valuesGet c.params k = "" <;> simp [h]

/-- `URL.Clone`: `copier.Copy` duplicates the exported fields, then the params
are rebuilt entry by entry from `RangeParams`/`SetParam`, which keeps only the
first value `v[0]` of each key. -/
def URL.Clone (c : URL) : URL :=
  { c with params := c.params.map (fun e => (e.1, [e.2.headD ""])) }

/-- The four parameter keys that `MergeURL`'s method loop lets the right-hand
URL override. -/
def mergeOverrideKeys : List String :=
  [LoadbalanceKey, ClusterKey, RetriesKey, TimeoutKey]

/-- `"methods." + method + "." + paramKey` as built inside `MergeURL` and the
method-parameter getters. -/
def methodsKey (m pk : String) : String :=
  "methods." ++ m ++ "." ++ pk

/-- One iteration of `MergeURL`'s first loop over `anotherUrl`'s parameters:
copy the entry when the merged URL does not yet have a non-empty value for the
key. -/
def mergeCopyStep (ps : Values) (kv : String × List String) : Values :=
  if (URL.GetNonDefaultParam { params := ps } kv.1).2 then ps
  else if kv.2.length > 0 then valuesSet ps kv.1 kv.2 else ps

/-- The `// remote timestamp` branch of `MergeURL`: fires when `c` has no
non-empty `timestamp` parameter, in which case the captured `v` is `""`. -/
def mergeTimestampStep (c anotherUrl : URL) (ps : Values) : Values :=
  let vok := c.GetNonDefaultParam TimestampKey
  if vok.2 then ps
  else
    valuesSet (valuesSet ps RemoteTimestampKey [vok.1]) TimestampKey
      [anotherUrl.GetParam TimestampKey ""]

/-- The body of `MergeURL`'s inner loop over
`[]string{LoadbalanceKey, ClusterKey, RetriesKey, TimeoutKey}`. -/
def mergeMethodKeyStep (anotherUrl : URL) (m : String) (ps2 : Values)
    (pk : String) : Values :=
  let ps3 :=
    let v := anotherUrl.GetParam pk ""
    if v.length > 0 then valuesSet ps2 pk [v] else ps2
  let mk := methodsKey m pk
  let v2 := anotherUrl.GetParam mk ""
  if v2.length > 0 then valuesSet ps3 mk [v2] else ps3

/-- One iteration of `MergeURL`'s loop over `anotherUrl.Methods`. -/
def mergeMethodStep (anotherUrl : URL) (ps : Values) (m : String) : Values :=
  mergeOverrideKeys.foldl (mergeMethodKeyStep anotherUrl m) ps

/-- `URL.MergeURL`: result based on `c` (the receiver); keys only present in
`anotherUrl` are copied in; a timestamp branch and a per-method override loop
follow; finally the merged URL takes `anotherUrl`'s method list. -/
def URL.MergeURL (c anotherUrl : URL) : URL :=
  let mergedURL := c.Clone
  let params1 := anotherUrl.params.foldl mergeCopyStep mergedURL.params
  let params2 := mergeTimestampStep c anotherUrl params1
  let params3 := anotherUrl.Methods.foldl (mergeMethodStep anotherUrl) params2
  { mergedURL with params := params3, Methods := anotherUrl.Methods }

/-- Free function `ServiceKey(intf, group, version)`. -/
def ServiceKey (intf group version : String) : String :=
  if intf = "" then ""
  else
    let buf := if group != "" then group ++ "/" else ""
    let buf := buf ++ intf
    if version != "" && version != "0.0.0" then buf ++ ":" ++ version
    else buf

/-- `strings.TrimPrefix`. -/
def goTrimPrefix (s pre : String) : String :=
  if s.startsWith pre then s.drop pre.length else s

/-- `URL.ServiceKey`, delegating to the free function with parameter
defaults. -/
def URL.ServiceKey (c : URL) : String :=
  DubboGo.ServiceKey (c.GetParam InterfaceKey (goTrimPrefix c.Path "/"))
    (c.GetParam GroupKey "") (c.GetParam VersionKey "")

/-! A `map[string]string`, used by `URL.ToMap`/`IsEquals`; same association
list representation as `Values`. -/

abbrev StrMap := List (String × String)

def mapSet (m : StrMap) (k v : String) : StrMap :=
  m.filter (fun e => e.1 != k) ++ [(k, v)]

def mapDelete (m : StrMap) (k : String) : StrMap :=
  m.filter (fun e => e.1 != k)

def mapFind (m : StrMap) (k : String) : Option String :=
  (m.find? (fun e => e.1 == k)).map Prod.snd

/-- `URL.ToMap`: the parameters (first value each, as ranged over by
`RangeParams`) plus the populated primitive fields.  The final
`len == 0 → nil` step returns an empty map either way and is omitted. -/
def URL.ToMap (c : URL) : StrMap :=
  let base : StrMap := c.params.foldl (fun m e => mapSet m e.1 (e.2.headD "")) []
  let base := if c.Protocol != "" then mapSet base "protocol" c.Protocol else base
  let base := if c.Username != "" then mapSet base "username" c.Username else base
  let base := if c.Password != "" then mapSet base "password" c.Password else base
  let base :=
    if c.Location != "" then
      let host := (c.Location.splitOn ":").headD ""
      let port := if c.Location.contains ':' then (c.Location.splitOn ":").getD 1 "" else "0"
      mapSet (mapSet base "host" host) "port" port
    else base
  let base := if c.Protocol != "" then mapSet base "protocol" c.Protocol else base
  if c.Path != "" then mapSet base "path" c.Path else base

/-! ### Lemmas about `MergeURL`'s parameter computation -/

theorem valuesGet_cons_eq (k : String) (v : List String) (rest : Values) :
    valuesGet ((k, v) :: rest) k = v.headD "" := by
  simp [valuesGet, List.find?]

theorem valuesGet_cons_ne (ek : String) (ev : List String) (rest : Values)
    (k : String) (h : k ≠ ek) :
    valuesGet ((ek, ev) :: rest) k = valuesGet rest k := by
  unfold valuesGet
  rw [List.find?_cons_of_neg]
  simp
  exact fun hh => h hh.symm

theorem valuesGet_not_mem (ps : Values) (k : String)
    (h : k ∉ ps.map Prod.fst) :
    valuesGet ps k = "" := by
  unfold valuesGet
  rw [List.find?_eq_none.mpr]
  intro e he hke
  exact h (List.mem_map.mpr ⟨e, he, by simpa using hke⟩)

theorem valuesGet_clone (ps : Values) (k : String) :
    valuesGet (ps.map (fun e => (e.1, [e.2.headD ""]))) k = valuesGet ps k := by
  induction ps with
  | nil => rfl
  | cons e rest ih =>
    obtain ⟨ek, ev⟩ := e
    by_cases hk : k = ek
    · subst hk
      rw [List.map_cons]
      have hred : (((k, ev).1 : String), ([(k, ev).2.headD ""] : List String)) =
          (k, [ev.headD ""]) := rfl
      rw [hred, valuesGet_cons_eq, valuesGet_cons_eq]
      simp
    · rw [List.map_cons]
      have hred : (((ek, ev).1 : String), ([(ek, ev).2.headD ""] : List String)) =
          (ek, [ev.headD ""]) := rfl
      rw [hred, valuesGet_cons_ne _ _ _ _ hk, valuesGet_cons_ne _ _ _ _ hk, ih]

theorem URL.clone_params_get (c : URL) (k : String) :
    valuesGet c.Clone.params k = valuesGet c.params k :=
  valuesGet_clone c.params k

/-- The first loop of `MergeURL`: a key keeps the accumulator's non-empty
value and otherwise receives the other URL's value. -/
theorem mergeCopy_foldl_get (bps : Values) (acc : Values) (k : String)
    (hnd : (bps.map Prod.fst).Nodup) :
    valuesGet (bps.foldl mergeCopyStep acc) k =
      if valuesGet acc k = "" then valuesGet bps k else valuesGet acc k := by
  induction bps generalizing acc with
  | nil =>
    by_cases h : valuesGet acc k = "" <;> simp [valuesGet_nil, h]
  | cons e rest ih =>
    obtain ⟨ek, ev⟩ := e
    have hndr : (rest.map Prod.fst).Nodup := (List.nodup_cons.mp hnd).2
    have hnm : ek ∉ rest.map Prod.fst := (List.nodup_cons.mp hnd).1
    rw [List.foldl_cons, ih _ hndr]
    by_cases hk : k = ek
    · subst hk
      have hrest : valuesGet rest k = "" := valuesGet_not_mem rest k hnm
      rw [valuesGet_cons_eq]
      by_cases hacc : valuesGet acc k = ""
      · have hstep : mergeCopyStep acc (k, ev) =
            if ev.length > 0 then valuesSet acc k ev else acc := by
          simp [mergeCopyStep, URL.GetNonDefaultParam, hacc]
        cases hev : ev with
        | nil =>
          subst hev
          simp only [List.length_nil, gt_iff_lt, lt_self_iff_false, if_false] at hstep
          rw [hstep, hacc]
          simp [hrest]
        | cons v vs =>
          subst hev
          simp only [List.length_cons, gt_iff_lt, Nat.succ_pos, if_true] at hstep
          rw [hstep, valuesGet_valuesSet, if_pos rfl, hacc, if_pos rfl]
          by_cases hv : (v :: vs).headD "" = ""
          · rw [hv, if_pos rfl, hrest]
          · rw [if_neg hv]
      · have hstep : mergeCopyStep acc (k, ev) = acc := by
          simp [mergeCopyStep, URL.GetNonDefaultParam, hacc]
        rw [hstep, if_neg hacc, if_neg hacc]
    · have hstep : valuesGet (mergeCopyStep acc (ek, ev)) k = valuesGet acc k := by
        unfold mergeCopyStep
        by_cases h1 : (URL.GetNonDefaultParam { params := acc } (ek, ev).1).2
        · rw [if_pos h1]
        · rw [if_neg h1]
          by_cases h2 : (ek, ev).2.length > 0
          · rw [if_pos h2, valuesGet_valuesSet, if_neg hk]
          · rw [if_neg h2]
      rw [hstep, valuesGet_cons_ne _ _ _ _ hk]

theorem strLengthPos (s : String) : 0 < s.length ↔ s ≠ "" := by
  constructor
  · intro h hc
    subst hc
    simp at h
  · intro h
    show 0 < s.data.length
    rw [List.length_pos]
    intro hc
    exact h (String.ext hc)

theorem methodsKey_data (m pk : String) :
    (methodsKey m pk).data =
      'm' :: 'e' :: 't' :: 'h' :: 'o' :: 'd' :: 's' :: '.' ::
        (m.data ++ '.' :: pk.data) := by
  have h8 : "methods.".data = ['m','e','t','h','o','d','s','.'] := rfl
  have h1 : ".".data = ['.'] := rfl
  simp [methodsKey, String.data_append, h8, h1]

/-- A string whose first character is not `m` is never a
`methods.<m>.<k>` key. -/
theorem ne_methodsKey_of_head (s m pk : String)
    (h : s.data.head? ≠ some 'm') : s ≠ methodsKey m pk := by
  intro hc
  apply h
  rw [hc, methodsKey_data]
  rfl

theorem overrideKeys_ne_methodsKey (pk₀ : String)
    (hpk : pk₀ ∈ mergeOverrideKeys) (m pk : String) :
    pk₀ ≠ methodsKey m pk := by
  have hm : pk₀ = "loadbalance" ∨ pk₀ = "cluster" ∨ pk₀ = "retries" ∨
      pk₀ = "timeout" := by
    simpa [mergeOverrideKeys, LoadbalanceKey, ClusterKey, RetriesKey,
      TimeoutKey] using hpk
  rcases hm with h | h | h | h <;> subst h <;>
    exact ne_methodsKey_of_head _ m pk (by decide)

theorem timestamp_ne_methodsKey (m pk : String) :
    TimestampKey ≠ methodsKey m pk :=
  ne_methodsKey_of_head _ m pk (by decide)

theorem remoteTimestamp_ne_methodsKey (m pk : String) :
    RemoteTimestampKey ≠ methodsKey m pk :=
  ne_methodsKey_of_head _ m pk (by decide)

/-- Reading back a guarded single-value write (`if len(v) > 0`). -/
theorem condWrite_get (ps : Values) (kk v k : String) :
    valuesGet (if v.length > 0 then valuesSet ps kk [v] else ps) k =
      if k = kk ∧ v ≠ "" then v else valuesGet ps k := by
  by_cases hv : v = ""
  · subst hv
    simp
  · rw [if_pos ((strLengthPos v).mpr hv), valuesGet_valuesSet]
    by_cases hk : k = kk
    · simp [hk, hv]
    · simp [hk]

/-- Effect on a single key of one iteration of the inner override-key loop. -/
theorem mergeMethodKeyStep_get (b : URL) (m : String) (ps2 : Values)
    (pk : String) (hpk : pk ∈ mergeOverrideKeys) (k : String) :
    valuesGet (mergeMethodKeyStep b m ps2 pk) k =
      if (k = pk ∨ k = methodsKey m pk) ∧ b.GetParam k "" ≠ "" then
        b.GetParam k ""
      else valuesGet ps2 k := by
  have hnePk : pk ≠ methodsKey m pk := overrideKeys_ne_methodsKey pk hpk m pk
  show valuesGet
      (if (b.GetParam (methodsKey m pk) "").length > 0 then
        valuesSet
          (if (b.GetParam pk "").length > 0 then
            valuesSet ps2 pk [b.GetParam pk ""] else ps2)
          (methodsKey m pk) [b.GetParam (methodsKey m pk) ""]
      else
        (if (b.GetParam pk "").length > 0 then
          valuesSet ps2 pk [b.GetParam pk ""] else ps2)) k = _
  rw [condWrite_get, condWrite_get]
  by_cases hk1 : k = pk
  · rw [← hk1] at hnePk ⊢
    rw [if_neg (fun h => hnePk h.1)]
    by_cases hb : b.GetParam k "" = ""
    · rw [if_neg (fun h => h.2 hb), if_neg (fun h => h.2 hb)]
    · rw [if_pos ⟨rfl, hb⟩, if_pos ⟨Or.inl rfl, hb⟩]
  · by_cases hk2 : k = methodsKey m pk
    · rw [← hk2]
      by_cases hb : b.GetParam k "" = ""
      · rw [if_neg (fun h => h.2 hb), if_neg (fun h => hk1 h.1),
          if_neg (fun h => h.2 hb)]
      · rw [if_pos ⟨rfl, hb⟩, if_pos ⟨Or.inr rfl, hb⟩]
    · rw [if_neg (fun h => hk2 h.1), if_neg (fun h => hk1 h.1),
        if_neg (fun h => h.1.elim hk1 hk2)]

theorem ite_same2 {a : Type} (P Q : Prop) [Decidable P] [Decidable Q]
    (v x : a) :
    (if P then v else if Q then v else x) = if P ∨ Q then v else x := by
  by_cases hp : P <;> by_cases hq : Q <;> simp [hp, hq]

theorem ite_same4 {a : Type} (P1 P2 P3 P4 : Prop) [Decidable P1] [Decidable P2]
    [Decidable P3] [Decidable P4] (v x : a) :
    (if P4 then v else if P3 then v else if P2 then v else if P1 then v else x) =
      if P1 ∨ P2 ∨ P3 ∨ P4 then v else x := by
  by_cases h1 : P1 <;> by_cases h2 : P2 <;> by_cases h3 : P3 <;>
    by_cases h4 : P4 <;> simp [h1, h2, h3, h4]

/-- Effect of one iteration of the loop over `anotherUrl.Methods` on one
key. -/
theorem mergeMethodStep_get (b : URL) (ps : Values) (m k : String) :
    valuesGet (mergeMethodStep b ps m) k =
      if (k ∈ mergeOverrideKeys ∨ ∃ pk ∈ mergeOverrideKeys, k = methodsKey m pk) ∧
          b.GetParam k "" ≠ "" then
        b.GetParam k ""
      else valuesGet ps k := by
  show valuesGet
      (mergeMethodKeyStep b m
        (mergeMethodKeyStep b m
          (mergeMethodKeyStep b m (mergeMethodKeyStep b m ps LoadbalanceKey)
            ClusterKey) RetriesKey) TimeoutKey) k = _
  rw [mergeMethodKeyStep_get b m _ TimeoutKey (by simp [mergeOverrideKeys]) k,
    mergeMethodKeyStep_get b m _ RetriesKey (by simp [mergeOverrideKeys]) k,
    mergeMethodKeyStep_get b m _ ClusterKey (by simp [mergeOverrideKeys]) k,
    mergeMethodKeyStep_get b m _ LoadbalanceKey (by simp [mergeOverrideKeys]) k,
    ite_same4]
  have hequiv :
      ((k = LoadbalanceKey ∨ k = methodsKey m LoadbalanceKey) ∧ b.GetParam k "" ≠ "") ∨
        ((k = ClusterKey ∨ k = methodsKey m ClusterKey) ∧ b.GetParam k "" ≠ "") ∨
        ((k = RetriesKey ∨ k = methodsKey m RetriesKey) ∧ b.GetParam k "" ≠ "") ∨
        ((k = TimeoutKey ∨ k = methodsKey m TimeoutKey) ∧ b.GetParam k "" ≠ "") ↔
      (k ∈ mergeOverrideKeys ∨ ∃ pk ∈ mergeOverrideKeys, k = methodsKey m pk) ∧
        b.GetParam k "" ≠ "" := by
    constructor
    · rintro (⟨h1 | h1, hb⟩ | ⟨h1 | h1, hb⟩ | ⟨h1 | h1, hb⟩ | ⟨h1 | h1, hb⟩)
      · exact ⟨Or.inl (by simp [mergeOverrideKeys, h1]), hb⟩
      · exact ⟨Or.inr ⟨LoadbalanceKey, by simp [mergeOverrideKeys], h1⟩, hb⟩
      · exact ⟨Or.inl (by simp [mergeOverrideKeys, h1]), hb⟩
      · exact ⟨Or.inr ⟨ClusterKey, by simp [mergeOverrideKeys], h1⟩, hb⟩
      · exact ⟨Or.inl (by simp [mergeOverrideKeys, h1]), hb⟩
      · exact ⟨Or.inr ⟨RetriesKey, by simp [mergeOverrideKeys], h1⟩, hb⟩
      · exact ⟨Or.inl (by simp [mergeOverrideKeys, h1]), hb⟩
      · exact ⟨Or.inr ⟨TimeoutKey, by simp [mergeOverrideKeys], h1⟩, hb⟩
    · rintro ⟨h1 | ⟨pk, hpk, hk⟩, hb⟩
      · have h4 : k = LoadbalanceKey ∨ k = ClusterKey ∨ k = RetriesKey ∨
            k = TimeoutKey := by simpa [mergeOverrideKeys] using h1
        rcases h4 with h | h | h | h
        · exact Or.inl ⟨Or.inl h, hb⟩
        · exact Or.inr (Or.inl ⟨Or.inl h, hb⟩)
        · exact Or.inr (Or.inr (Or.inl ⟨Or.inl h, hb⟩))
        · exact Or.inr (Or.inr (Or.inr ⟨Or.inl h, hb⟩))
      · have h4 : pk = LoadbalanceKey ∨ pk = ClusterKey ∨ pk = RetriesKey ∨
            pk = TimeoutKey := by simpa [mergeOverrideKeys] using hpk
        rcases h4 with h | h | h | h <;> subst h
        · exact Or.inl ⟨Or.inr hk, hb⟩
        · exact Or.inr (Or.inl ⟨Or.inr hk, hb⟩)
        · exact Or.inr (Or.inr (Or.inl ⟨Or.inr hk, hb⟩))
        · exact Or.inr (Or.inr (Or.inr ⟨Or.inr hk, hb⟩))
  rw [if_congr hequiv rfl rfl]

/-- Effect of the whole loop over `anotherUrl.Methods` on one key: the four
override keys are replaced by `anotherUrl`'s non-empty values as soon as the
method list is non-empty, and `methods.<m>.<key>` entries are replaced for the
listed methods. -/
theorem mergeMethodFold_get (b : URL) (methods : List String) (ps : Values)
    (k : String) :
    valuesGet (methods.foldl (mergeMethodStep b) ps) k =
      if ((k ∈ mergeOverrideKeys ∧ methods ≠ []) ∨
            ∃ m ∈ methods, ∃ pk ∈ mergeOverrideKeys, k = methodsKey m pk) ∧
          b.GetParam k "" ≠ "" then
        b.GetParam k ""
      else valuesGet ps k := by
  induction methods generalizing ps with
  | nil => simp
  | cons m rest ih =>
    rw [List.foldl_cons, ih, mergeMethodStep_get, ite_same2]
    have hequiv :
        ((((k ∈ mergeOverrideKeys ∧ rest ≠ []) ∨
              ∃ m2 ∈ rest, ∃ pk ∈ mergeOverrideKeys, k = methodsKey m2 pk) ∧
            b.GetParam k "" ≠ "") ∨
          ((k ∈ mergeOverrideKeys ∨ ∃ pk ∈ mergeOverrideKeys, k = methodsKey m pk) ∧
            b.GetParam k "" ≠ "")) ↔
        ((k ∈ mergeOverrideKeys ∧ m :: rest ≠ []) ∨
            ∃ m2 ∈ m :: rest, ∃ pk ∈ mergeOverrideKeys, k = methodsKey m2 pk) ∧
          b.GetParam k "" ≠ "" := by
      constructor
      · rintro (⟨h1 | h1, hb⟩ | ⟨h1 | h1, hb⟩)
        · exact ⟨Or.inl ⟨h1.1, List.cons_ne_nil m rest⟩, hb⟩
        · obtain ⟨m2, hm2, hpk⟩ := h1
          exact ⟨Or.inr ⟨m2, List.mem_cons_of_mem m hm2, hpk⟩, hb⟩
        · exact ⟨Or.inl ⟨h1, List.cons_ne_nil m rest⟩, hb⟩
        · exact ⟨Or.inr ⟨m, List.mem_cons_self m rest, h1⟩, hb⟩
      · rintro ⟨h1 | ⟨m2, hm2, hpk⟩, hb⟩
        · exact Or.inr ⟨Or.inl h1.1, hb⟩
        · rcases List.mem_cons.mp hm2 with heq | hmem
          · subst heq
            exact Or.inr ⟨Or.inr hpk, hb⟩
          · exact Or.inl ⟨Or.inr ⟨m2, hmem, hpk⟩, hb⟩
    rw [if_congr hequiv rfl rfl]

theorem mergeTimestampStep_get (c b : URL) (ps : Values) (k : String) :
    valuesGet (mergeTimestampStep c b ps) k =
      if valuesGet c.params TimestampKey ≠ "" then valuesGet ps k
      else if k = TimestampKey then b.GetParam TimestampKey ""
      else if k = RemoteTimestampKey then ""
      else valuesGet ps k := by
  unfold mergeTimestampStep URL.GetNonDefaultParam
  by_cases hts : valuesGet c.params TimestampKey = ""
  · rw [if_neg (by simp [hts]), if_neg (by simp [hts]), valuesGet_valuesSet]
    by_cases hk1 : k = TimestampKey
    · rw [if_pos hk1, if_pos hk1]
      simp
    · rw [if_neg hk1, if_neg hk1, valuesGet_valuesSet]
      by_cases hk2 : k = RemoteTimestampKey
      · rw [if_pos hk2, if_pos hk2, hts]
        simp
      · rw [if_neg hk2, if_neg hk2]
  · rw [if_pos (by simp [hts]), if_pos (by simp [hts])]

/-- The spec's left-biased lookup `a.get(k) ?? b.get(k)`. -/
def leftBiasedGet (a b : URL) (k : String) : String :=
  if a.GetParam k "" ≠ "" then a.GetParam k "" else b.GetParam k ""

theorem leftBiasedGet_eq (a b : URL) (k : String) :
    leftBiasedGet a b k =
      if valuesGet a.params k = "" then valuesGet b.params k
      else valuesGet a.params k := by
  unfold leftBiasedGet
  rw [URL.getParam_empty, URL.getParam_empty]
  by_cases h : valuesGet a.params k = "" <;> simp [h]

theorem mergeOverrideKeys_cases (k : String) (h : k ∈ mergeOverrideKeys) :
    k = LoadbalanceKey ∨ k = ClusterKey ∨ k = RetriesKey ∨ k = TimeoutKey := by
  simpa [mergeOverrideKeys] using h

theorem mergeOverrideKeys_ne_ts (k : String) (h : k ∈ mergeOverrideKeys) :
    k ≠ TimestampKey ∧ k ≠ RemoteTimestampKey := by
  rcases mergeOverrideKeys_cases k h with h1 | h1 | h1 | h1 <;> subst h1 <;>
    exact ⟨by decide, by decide⟩

/-- `GetParam` after `MergeURL`, before the case analysis over key classes. -/
theorem mergeURL_getParam_split (a b : URL) (k : String)
    (hnodb : (b.params.map Prod.fst).Nodup) :
    (a.MergeURL b).GetParam k "" =
      if ((k ∈ mergeOverrideKeys ∧ b.Methods ≠ []) ∨
            ∃ m ∈ b.Methods, ∃ pk ∈ mergeOverrideKeys, k = methodsKey m pk) ∧
          b.GetParam k "" ≠ "" then
        b.GetParam k ""
      else
        if valuesGet a.params TimestampKey ≠ "" then
          if valuesGet a.params k = "" then valuesGet b.params k
          else valuesGet a.params k
        else if k = TimestampKey then b.GetParam TimestampKey ""
        else if k = RemoteTimestampKey then ""
        else
          if valuesGet a.params k = "" then valuesGet b.params k
          else valuesGet a.params k := by
  rw [URL.getParam_empty]
  show valuesGet
      (b.Methods.foldl (mergeMethodStep b)
        (mergeTimestampStep a b (b.params.foldl mergeCopyStep a.Clone.params))) k = _
  rw [mergeMethodFold_get, mergeTimestampStep_get,
    mergeCopy_foldl_get _ _ _ hnodb, URL.clone_params_get]

/-- Free function `IsEquals(left, right, excludes...)`.  The two URL pointers
are modelled as `Option URL`; a nil-pointer dereference is `none` in the
result.  The guard returns `false` when exactly one pointer is nil, after
which the code reads `left.Ip`/`right.Ip` unconditionally, so the nil/nil
case dereferences nil. -/
def IsEquals (left right : Option URL) (excludes : List String) : Option Bool :=
  if (left = none ∧ right ≠ none) ∨ (right = none ∧ left ≠ none) then some false
  else
    match left, right with
    | some l, some r =>
      if l.Ip ≠ r.Ip ∨ l.Port ≠ r.Port then some false
      else
        let leftMap := excludes.foldl mapDelete l.ToMap
        let rightMap := excludes.foldl mapDelete r.ToMap
        if leftMap.length ≠ rightMap.length then some false
        else
          some (leftMap.all (fun e =>
            match mapFind rightMap e.1 with
            | some rv => rv == e.2
            | none => false))
    | _, _ => none

/-! ## Claim C1, C2: MergeURL parameter semantics -/

/-- C1 (amended): after `MergeURL(a, b)`, a key outside the override set that
is neither `remote.timestamp` nor a `methods.<m>.<pk>` key for a method of `b`
and an override key `pk` reads left-biased (`a`'s value if non-empty, else
`b`'s).  An override-set key is overridden by `b`'s non-empty value only when
`b`'s method list is non-empty, and otherwise reads left-biased.  A
`methods.<m>.<pk>` key (for `m` in `b.Methods`, `pk` in the override set) is
overridden by `b`'s non-empty value, else reads left-biased.  When `a` lacks a
timestamp parameter, `remote.timestamp` is clobbered to the empty string;
otherwise it reads left-biased. -/
theorem c1_mergeURL_override_amended (a b : URL)
    (ha : wfValues a.params) (hb : wfValues b.params) (k : String) :
    (k ∉ mergeOverrideKeys →
      (∀ m ∈ b.Methods, ∀ pk ∈ mergeOverrideKeys, k ≠ methodsKey m pk) →
      k ≠ RemoteTimestampKey →
      (a.MergeURL b).GetParam k "" = leftBiasedGet a b k) ∧
    (k ∈ mergeOverrideKeys →
      (a.MergeURL b).GetParam k "" =
        if b.Methods ≠ [] ∧ b.GetParam k "" ≠ "" then b.GetParam k ""
        else leftBiasedGet a b k) ∧
    (∀ m ∈ b.Methods, ∀ pk ∈ mergeOverrideKeys, k = methodsKey m pk →
      (a.MergeURL b).GetParam k "" =
        if b.GetParam k "" ≠ "" then b.GetParam k ""
        else leftBiasedGet a b k) ∧
    (k = RemoteTimestampKey →
      (a.MergeURL b).GetParam k "" =
        if a.GetParam TimestampKey "" ≠ "" then leftBiasedGet a b k else "") := by
  have hsplit := mergeURL_getParam_split a b k hb.1
  have hlb := leftBiasedGet_eq a b k
  refine ⟨?_, ?_, ?_, ?_⟩
  · intro hko hkm hkr
    rw [hsplit, if_neg ?_]
    · by_cases hts : valuesGet a.params TimestampKey = ""
      · rw [if_neg (fun hc => hc hts)]
        by_cases hk1 : k = TimestampKey
        · subst hk1
          rw [if_pos rfl, hlb, if_pos hts, URL.getParam_empty]
        · rw [if_neg hk1, if_neg hkr, hlb]
      · rw [if_pos hts, hlb]
    · rintro ⟨h1 | ⟨m, hm, pk, hpk, hk⟩, _⟩
      · exact hko h1.1
      · exact hkm m hm pk hpk hk
  · intro hko
    obtain ⟨hne_ts, hne_rts⟩ := mergeOverrideKeys_ne_ts k hko
    rw [hsplit]
    by_cases hcond : b.Methods ≠ [] ∧ b.GetParam k "" ≠ ""
    · rw [if_pos ⟨Or.inl ⟨hko, hcond.1⟩, hcond.2⟩, if_pos hcond]
    · rw [if_neg ?_, if_neg hcond]
      · by_cases hts : valuesGet a.params TimestampKey = ""
        · rw [if_neg (fun hc => hc hts), if_neg hne_ts, if_neg hne_rts, hlb]
        · rw [if_pos hts, hlb]
      · rintro ⟨h1 | ⟨m, hm, pk, hpk, hk⟩, hbn⟩
        · exact hcond ⟨h1.2, hbn⟩
        · exact overrideKeys_ne_methodsKey k hko m pk hk
  · intro m hm pk hpk hkeq
    have hne_ts : k ≠ TimestampKey := by
      intro hc
      exact timestamp_ne_methodsKey m pk (hc ▸ hkeq)
    have hne_rts : k ≠ RemoteTimestampKey := by
      intro hc
      exact remoteTimestamp_ne_methodsKey m pk (hc ▸ hkeq)
    have hguard : ∃ m2 ∈ b.Methods, ∃ pk2 ∈ mergeOverrideKeys,
        k = methodsKey m2 pk2 := ⟨m, hm, pk, hpk, hkeq⟩
    by_cases hbn : b.GetParam k "" = "" <;>
      by_cases hts : valuesGet a.params TimestampKey = "" <;>
      simp [hsplit, hbn, hts, hne_ts, hne_rts, hguard, hlb]
  · intro hkeq
    subst hkeq
    have h1 : RemoteTimestampKey ∉ mergeOverrideKeys := by decide
    have h2 : ∀ m pk, RemoteTimestampKey ≠ methodsKey m pk :=
      remoteTimestamp_ne_methodsKey
    have h3 : RemoteTimestampKey ≠ TimestampKey := by decide
    by_cases hts : valuesGet a.params TimestampKey = "" <;>
      simp [hsplit, hts, h1, h2, h3, hlb, URL.getParam_empty]

/-- C1 counterexample: with `b.Methods` empty, `loadbalance` (an override-set
key held by `b`) is *not* overridden: the merged URL keeps `a`'s value. -/
theorem c1_counterexample :
    LoadbalanceKey ∈ mergeOverrideKeys ∧
    (URL.GetParam { params := [("loadbalance", ["roundrobin"])] }
      LoadbalanceKey "") = "roundrobin" ∧
    (URL.MergeURL { params := [("loadbalance", ["random"])] }
        { params := [("loadbalance", ["roundrobin"])] }).GetParam
      LoadbalanceKey "" = "random" ∧
    ("random" : String) ≠ "roundrobin" := by
  refine ⟨by simp [mergeOverrideKeys], rfl, rfl, by decide⟩

/-- C1 witness: the amended override clause at a concrete input (`b` with a
non-empty method list does override `loadbalance`). -/
theorem c1_amended_witness :
    (URL.MergeURL { params := [("loadbalance", ["random"]), ("timestamp", ["9"])] }
        { params := [("loadbalance", ["roundrobin"])], Methods := ["m1"] }).GetParam
      LoadbalanceKey "" =
      if ([("m1" : String)] ≠ [] ∧
          (URL.GetParam { params := [("loadbalance", ["roundrobin"])], Methods := ["m1"] }
            LoadbalanceKey "") ≠ "") then
        URL.GetParam { params := [("loadbalance", ["roundrobin"])], Methods := ["m1"] }
          LoadbalanceKey ""
      else
        leftBiasedGet { params := [("loadbalance", ["random"]), ("timestamp", ["9"])] }
          { params := [("loadbalance", ["roundrobin"])], Methods := ["m1"] }
          LoadbalanceKey :=
  (c1_mergeURL_override_amended
    { params := [("loadbalance", ["random"]), ("timestamp", ["9"])] }
    { params := [("loadbalance", ["roundrobin"])], Methods := ["m1"] }
    (by constructor
        · decide
        · intro e he
          simp at he
          rcases he with h | h <;> subst h <;> decide)
    (by constructor
        · decide
        · intro e he
          simp at he
          subst he
          decide)
    LoadbalanceKey).2.1 (by simp [mergeOverrideKeys])

/-- C2: `MergeURL`'s timestamp branch is inverted.  At a pair of URLs that
both carry a timestamp, the merged URL keeps `a`'s `timestamp` (instead of
taking `b`'s) and gains no `remote.timestamp` parameter at all (the merged
parameter map is exactly `a`'s single timestamp entry). -/
theorem c2_mergeURL_timestamp_bug :
    (URL.MergeURL { params := [(TimestampKey, ["1111"])] }
        { params := [(TimestampKey, ["2222"])] }).params =
      [(TimestampKey, ["1111"])] ∧
    (URL.MergeURL { params := [(TimestampKey, ["1111"])] }
        { params := [(TimestampKey, ["2222"])] }).GetParam TimestampKey "" =
      "1111" ∧
    valuesGet (URL.MergeURL { params := [(TimestampKey, ["1111"])] }
        { params := [(TimestampKey, ["2222"])] }).params RemoteTimestampKey =
      "" := by
  refine ⟨rfl, rfl, rfl⟩

/-! ## Claim C6: service keys -/

/-- The service-key formula exactly as the spec words it. -/
def serviceKeySpec (intf group version : String) : String :=
  (if group ≠ "" then group ++ "/" else "") ++ intf ++
    (if version ≠ "" ∧ version ≠ "0.0.0" then ":" ++ version else "")

/-- C6 counterexample: with an empty interface and non-empty group,
`ServiceKey` returns `""`, not the claimed `group ++ "/"`. -/
theorem c6_counterexample :
    ServiceKey "" "g" "" = "" ∧ serviceKeySpec "" "g" "" = "g/" ∧
    ServiceKey "" "g" "" ≠ serviceKeySpec "" "g" "" := by
  refine ⟨rfl, rfl, by decide⟩

/-- C6 (amended): for a non-empty interface the service key follows the
claimed format; an empty interface yields the empty key; version `0.0.0` is
equivalent to an empty version; and `URL.ServiceKey` depends only on the
interface (with path fallback), group and version parameters. -/
theorem c6_serviceKey_amended (intf group version : String) :
    (intf ≠ "" → ServiceKey intf group version = serviceKeySpec intf group version) ∧
    (intf = "" → ServiceKey intf group version = "") ∧
    ServiceKey intf group "0.0.0" = ServiceKey intf group "" ∧
    (∀ c d : URL,
      c.GetParam InterfaceKey (goTrimPrefix c.Path "/") =
        d.GetParam InterfaceKey (goTrimPrefix d.Path "/") →
      c.GetParam GroupKey "" = d.GetParam GroupKey "" →
      c.GetParam VersionKey "" = d.GetParam VersionKey "" →
      c.ServiceKey = d.ServiceKey) := by
  refine ⟨?_, ?_, ?_, ?_⟩
  · intro hintf
    unfold ServiceKey serviceKeySpec
    rw [if_neg hintf]
    by_cases hg : group = "" <;> by_cases hv : version ≠ "" ∧ version ≠ "0.0.0"
    · have hvb : (version != "" && version != "0.0.0") = true := by
        simp [hv.1, hv.2]
      simp [hg, hv, hvb, String.append_assoc]
    · have hvb : (version != "" && version != "0.0.0") = false := by
        rcases not_and_or.mp hv with h | h <;> simp at h <;> simp [h]
      simp [hg, hv, hvb]
    · have hvb : (version != "" && version != "0.0.0") = true := by
        simp [hv.1, hv.2]
      simp [hg, hv, hvb, String.append_assoc]
    · have hvb : (version != "" && version != "0.0.0") = false := by
        rcases not_and_or.mp hv with h | h <;> simp at h <;> simp [h]
      simp [hg, hv, hvb]
  · intro hintf
    unfold ServiceKey
    rw [if_pos hintf]
  · unfold ServiceKey
    by_cases hintf : intf = ""
    · rw [if_pos hintf, if_pos hintf]
    · rw [if_neg hintf, if_neg hintf]
      simp
  · intro c d h1 h2 h3
    unfold URL.ServiceKey
    rw [h1, h2, h3]

/-- C6 witness: the amended formula at a concrete input. -/
theorem c6_amended_witness :
    ServiceKey "com.X" "g" "1.2" = serviceKeySpec "com.X" "g" "1.2" :=
  (c6_serviceKey_amended "com.X" "g" "1.2").1 (by decide)

/-! ## Claim C9: IsEquals at nil -/

/-- C9: `IsEquals` returns `false` when exactly one argument is nil, but
dereferences nil (no result, modelled `none`) when both are nil; with two
non-nil arguments it always produces a result. -/
theorem c9_isEquals_nil :
    (∀ u : URL, ∀ ex : List String, IsEquals none (some u) ex = some false) ∧
    (∀ u : URL, ∀ ex : List String, IsEquals (some u) none ex = some false) ∧
    (∀ ex : List String, IsEquals none none ex = none) ∧
    (∀ l r : URL, ∀ ex : List String, (IsEquals (some l) (some r) ex).isSome) := by
  refine ⟨?_, ?_, ?_, ?_⟩
  · intro u ex
    simp [IsEquals]
  · intro u ex
    simp [IsEquals]
  · intro ex
    simp [IsEquals]
  · intro l r ex
    simp only [IsEquals]
    split_ifs <;> simp

/-! ## ServiceInstance and the nacos service-discovery adapter
(registry/nacos/service_discovery.go, part_000)

Constants: `DefaultNacosWeight`/`MaxNacosWeight` follow the code comments
("Nacos default is 1", "Nacos upper limit is 10000"); `DefaultWeight` (used by
`DefaultServiceInstance.GetWeight`) lives in the constant package outside the
embedded sources — the spec only says "≤0 means use default", so any positive
value works; 100 is used here. -/

def idKey : String := "id"

def RegistryKey : String := "registry"

def WeightKey : String := "weight"

def DefaultNacosWeight : Int := 1

def MaxNacosWeight : Int := 10000

def DefaultWeight : Int := 100

/-- `registry.DefaultServiceInstance` (part_000), the fields the adapter
reads/writes. -/
structure DefaultServiceInstance where
  ID : String := ""
  ServiceName : String := ""
  Host : String := ""
  Port : Int := 0
  Weight : Int := 0
  Enable : Bool := false
  Healthy : Bool := false
  Metadata : StrMap := []
  GroupName : String := ""
  Tag : String := ""
  deriving Repr, DecidableEq

/-- `DefaultServiceInstance.GetWeight`: non-positive weights fall back to
`constant.DefaultWeight`. -/
def DefaultServiceInstance.GetWeight (d : DefaultServiceInstance) : Int :=
  if d.Weight ≤ 0 then DefaultWeight else d.Weight

/-- Decimal digits to a natural number. -/
def digitsToNat (cs : List Char) : Nat :=
  cs.foldl (fun n c => n * 10 + (c.toNat - 48)) 0

/-- `strconv.ParseFloat`, modelled on plain decimal forms
(`[+-]digits[.digits][eE[+-]digits]`, with at least one mantissa digit).
Hex floats, `Inf`/`NaN` and underscored literals are treated as non-numeric;
binary-float rounding is not modelled (values are exact rationals). -/
def parseGoFloat (s : String) : Option Rat :=
  let cs := s.data
  let signRest : Rat × List Char :=
    match cs with
    | '+' :: rest => (1, rest)
    | '-' :: rest => (-1, rest)
    | _ => (1, cs)
  let sign := signRest.1
  let ipRest := signRest.2.span (fun c => c.isDigit)
  let ip := ipRest.1
  let fpRest : List Char × List Char :=
    match ipRest.2 with
    | '.' :: rest => rest.span (fun c => c.isDigit)
    | _ => ([], ipRest.2)
  let fp := fpRest.1
  if ip = [] ∧ fp = [] then none
  else
    let mant : Rat :=
      sign * ((digitsToNat ip : Rat) + (digitsToNat fp : Rat) / (10 : Rat) ^ fp.length)
    match fpRest.2 with
    | [] => some mant
    | c :: rest =>
      if c = 'e' ∨ c = 'E' then
        let esignRest : Int × List Char :=
          match rest with
          | '+' :: r => (1, r)
          | '-' :: r => (-1, r)
          | _ => (1, rest)
        let edRest := esignRest.2.span (fun c => c.isDigit)
        if edRest.1 = [] ∨ edRest.2 ≠ [] then none
        else some (mant * (10 : Rat) ^ (esignRest.1 * (digitsToNat edRest.1 : Int)))
      else none

/-- Go's `int64(f)`: truncation toward zero (conversion of values beyond the
int64 range is implementation-specific in Go and not modelled). -/
def ratTrunc (q : Rat) : Int :=
  q.num / (q.den : Int)

/-- `vo.RegisterInstanceParam`, the fields `toRegisterInstance` populates. -/
structure RegisterInstanceParam where
  ServiceName : String
  Ip : String
  Port : Int
  Metadata : StrMap
  Weight : Rat
  Enable : Bool
  Healthy : Bool
  GroupName : String
  Ephemeral : Bool
  deriving Repr

/-- The weight resolution inside `toRegisterInstance`: provider weight, then
the registry URL's `registry.weight` override (non-numeric values keep the
provider weight), then the validity switch. -/
def toRegisterInstanceWeight (registryURL : URL)
    (inst : DefaultServiceInstance) : Int :=
  let w := inst.GetWeight
  let urlW := registryURL.GetParam (RegistryKey ++ "." ++ WeightKey) ""
  let w :=
    if urlW ≠ "" then
      match parseGoFloat urlW with
      | some f => ratTrunc f
      | none => w
    else w
  if w ≤ 0 then DefaultNacosWeight
  else if w > MaxNacosWeight then MaxNacosWeight
  else w

/-- `nacosServiceDiscovery.toRegisterInstance`. -/
def toRegisterInstance (group : String) (registryURL : URL)
    (inst : DefaultServiceInstance) : RegisterInstanceParam :=
  let metadata := inst.Metadata
  let w := toRegisterInstanceWeight registryURL inst
  { ServiceName := inst.ServiceName
    Ip := inst.Host
    Port := inst.Port
    Metadata := mapSet metadata idKey inst.ID
    Weight := (w : Rat)
    Enable := inst.Enable
    Healthy := inst.Healthy
    GroupName := group
    Ephemeral := true }

/-- The subset of the nacos `model.Instance` record the adapter reads. -/
structure NacosModelInstance where
  Ip : String := ""
  Port : Int := 0
  Weight : Rat := 0
  Enable : Bool := false
  Healthy : Bool := false
  Metadata : StrMap := []
  deriving Repr, DecidableEq

/-- `math.Round`: round half away from zero. -/
def mathRound (x : Rat) : Int :=
  if 0 ≤ x then ⌊x + 1 / 2⌋ else -⌊-x + 1 / 2⌋

/-- The per-record translation inside `GetInstances`: id recovered from the
reserved metadata key, enable/healthy copied from the backend record. -/
def getInstancesTranslate (group serviceName : String)
    (ins : NacosModelInstance) : DefaultServiceInstance :=
  let metadata := ins.Metadata
  let id := (mapFind metadata idKey).getD ""
  let metadata := mapDelete metadata idKey
  { ID := id
    ServiceName := serviceName
    Host := ins.Ip
    Port := ins.Port
    Weight := mathRound ins.Weight
    Enable := ins.Enable
    Healthy := ins.Healthy
    Metadata := metadata
    GroupName := group }

/-- `nacosServiceDiscovery.GetInstances` on a backend reply. -/
def nacosGetInstances (group serviceName : String)
    (instances : List NacosModelInstance) : List DefaultServiceInstance :=
  instances.map (getInstancesTranslate group serviceName)

/-- The per-record translation inside the `SubscribeCallback` installed by
`AddListener`: identical to `GetInstances` except that `Healthy` is the
constant `true`. -/
def subscribeCallbackTranslate (group serviceName : String)
    (service : NacosModelInstance) : DefaultServiceInstance :=
  let metadata := service.Metadata
  let id := (mapFind metadata idKey).getD ""
  let metadata := mapDelete metadata idKey
  { ID := id
    ServiceName := serviceName
    Host := service.Ip
    Port := service.Port
    Weight := mathRound service.Weight
    Enable := service.Enable
    Healthy := true
    Metadata := metadata
    GroupName := group }

/-- The instance list built by the subscription callback. -/
def subscribeCallbackInstances (group serviceName : String)
    (services : List NacosModelInstance) : List DefaultServiceInstance :=
  services.map (subscribeCallbackTranslate group serviceName)

/-- The page data built by `GetInstancesByPage`: the loop
`for i := offset; i < len(all) && i < offset+pageSize; i++` collects
`all[offset : min(len(all), offset+pageSize)]`. -/
def getInstancesByPageData (all : List DefaultServiceInstance)
    (offset pageSize : Nat) : List DefaultServiceInstance :=
  (all.drop offset).take pageSize

/-- Successive pages at offsets `start, start+n, start+2n, ...`, stopping
after the first page that holds fewer than `n` items (fuel-bounded; the fuel
is sufficient whenever it exceeds the number of pages). -/
def collectPagesFrom (all : List DefaultServiceInstance) (n : Nat) :
    Nat → Nat → List DefaultServiceInstance
  | 0, _ => []
  | fuel + 1, offset =>
    let page := getInstancesByPageData all offset n
    if page.length < n then page
    else page ++ collectPagesFrom all n fuel (offset + n)

/-- All pages of size `n` from offset 0. -/
def collectPages (all : List DefaultServiceInstance) (n : Nat) :
    List DefaultServiceInstance :=
  collectPagesFrom all n (all.length + 1) 0

theorem collectPagesFrom_eq (all : List DefaultServiceInstance) (n : Nat)
    (hn : 0 < n) :
    ∀ (fuel offset : Nat), all.length - offset ≤ fuel * n →
      collectPagesFrom all n fuel offset = all.drop offset := by
  intro fuel
  induction fuel with
  | zero =>
    intro offset h
    simp only [Nat.zero_mul, Nat.le_zero] at h
    rw [collectPagesFrom]
    exact (List.drop_eq_nil_iff.mpr (Nat.le_of_sub_eq_zero h)).symm
  | succ fuel ih =>
    intro offset h
    rw [collectPagesFrom]
    have hlen : (getInstancesByPageData all offset n).length =
        min n (all.length - offset) := by
      simp [getInstancesByPageData]
    by_cases hlt : all.length - offset < n
    · rw [if_pos (by rw [hlen]; exact lt_of_le_of_lt (min_le_right _ _) hlt)]
      unfold getInstancesByPageData
      exact List.take_of_length_le (by simpa using Nat.le_of_lt hlt)
    · push_neg at hlt
      rw [if_neg (by rw [hlen]; simp [hlt])]
      rw [ih (offset + n) (by
        rw [Nat.succ_mul] at h
        omega)]
      unfold getInstancesByPageData
      rw [show all.drop (offset + n) = (all.drop offset).drop n by
        rw [List.drop_drop, Nat.add_comm]]
      exact List.take_append_drop n (all.drop offset)

/-! ## Claims C4, C7, C10 -/

/-- The claim's clamp: a non-positive result becomes the default weight, a
result above the maximum becomes the maximum. -/
def specClamp (w : Int) : Int :=
  if w ≤ 0 then DefaultNacosWeight
  else if w > MaxNacosWeight then MaxNacosWeight
  else w

theorem specClamp_bounds (w : Int) :
    0 < specClamp w ∧ specClamp w ≤ MaxNacosWeight := by
  unfold specClamp DefaultNacosWeight MaxNacosWeight
  split_ifs with h1 h2 <;> omega

theorem toRegisterInstanceWeight_eq (registryURL : URL)
    (inst : DefaultServiceInstance) :
    toRegisterInstanceWeight registryURL inst =
      specClamp
        (if registryURL.GetParam (RegistryKey ++ "." ++ WeightKey) "" ≠ "" then
          match parseGoFloat (registryURL.GetParam (RegistryKey ++ "." ++ WeightKey) "") with
          | some f => ratTrunc f
          | none => inst.GetWeight
        else inst.GetWeight) := rfl

/-- C4: the weight registered with the naming backend starts from
`instance.GetWeight()`, is replaced by a parseable non-empty `registry.weight`
override (truncated to an integer) while a non-numeric override falls back to
the start value, and is then clamped (non-positive → default, above the
maximum → maximum), so it always lies in `(0, MaxNacosWeight]`. -/
theorem c4_register_weight (group : String) (registryURL : URL)
    (inst : DefaultServiceInstance) :
    (0 < (toRegisterInstance group registryURL inst).Weight ∧
      (toRegisterInstance group registryURL inst).Weight ≤ (MaxNacosWeight : Rat)) ∧
    (registryURL.GetParam (RegistryKey ++ "." ++ WeightKey) "" = "" →
      (toRegisterInstance group registryURL inst).Weight =
        (specClamp inst.GetWeight : Rat)) ∧
    (∀ f : Rat, registryURL.GetParam (RegistryKey ++ "." ++ WeightKey) "" ≠ "" →
      parseGoFloat (registryURL.GetParam (RegistryKey ++ "." ++ WeightKey) "") = some f →
      (toRegisterInstance group registryURL inst).Weight =
        (specClamp (ratTrunc f) : Rat)) ∧
    (registryURL.GetParam (RegistryKey ++ "." ++ WeightKey) "" ≠ "" →
      parseGoFloat (registryURL.GetParam (RegistryKey ++ "." ++ WeightKey) "") = none →
      (toRegisterInstance group registryURL inst).Weight =
        (specClamp inst.GetWeight : Rat)) := by
  have hW : (toRegisterInstance group registryURL inst).Weight =
      ((toRegisterInstanceWeight registryURL inst : Int) : Rat) := rfl
  refine ⟨⟨?_, ?_⟩, ?_, ?_, ?_⟩
  · rw [hW, toRegisterInstanceWeight_eq]
    exact_mod_cast (specClamp_bounds _).1
  · rw [hW, toRegisterInstanceWeight_eq]
    exact_mod_cast (specClamp_bounds _).2
  · intro h0
    rw [hW, toRegisterInstanceWeight_eq]
    norm_cast
    rw [if_neg (by simp [h0])]
  · intro f hne hf
    rw [hW, toRegisterInstanceWeight_eq]
    norm_cast
    rw [if_pos hne, hf]
  · intro hne hf
    rw [hW, toRegisterInstanceWeight_eq]
    norm_cast
    rw [if_pos hne, hf]

/-- C4 witness: a registry URL without `registry.weight` registers the
clamped provider weight. -/
theorem c4_register_weight_witness :
    URL.GetParam {} (RegistryKey ++ "." ++ WeightKey) "" = "" ∧
    (toRegisterInstance "g" {} { Weight := 7 }).Weight =
      (specClamp (DefaultServiceInstance.GetWeight { Weight := 7 }) : Rat) :=
  ⟨rfl, (c4_register_weight "g" {} { Weight := 7 }).2.1 rfl⟩

/-- C7: for a positive page size, concatenating the pages of
`GetInstancesByPage` at offsets `0, n, 2n, ...` until a page holds fewer than
`n` items yields exactly the list returned by `GetInstances` — nothing
dropped, nothing duplicated. -/
theorem c7_pagination_total (group serviceName : String)
    (recs : List NacosModelInstance) (n : Nat) (hn : 0 < n) :
    collectPages (nacosGetInstances group serviceName recs) n =
      nacosGetInstances group serviceName recs := by
  unfold collectPages
  rw [collectPagesFrom_eq _ n hn _ 0 ?_]
  · exact List.drop_zero _
  · have h1 : (nacosGetInstances group serviceName recs).length + 1 ≤
        ((nacosGetInstances group serviceName recs).length + 1) * n :=
      Nat.le_mul_of_pos_right _ hn
    omega

/-- C7 witness: three instances, page size two. -/
theorem c7_pagination_total_witness :
    0 < 2 ∧
    collectPages
        (nacosGetInstances "g" "svc"
          [{ Ip := "10.0.0.1", Healthy := true },
           { Ip := "10.0.0.2", Healthy := false },
           { Ip := "10.0.0.3", Healthy := true }]) 2 =
      nacosGetInstances "g" "svc"
        [{ Ip := "10.0.0.1", Healthy := true },
         { Ip := "10.0.0.2", Healthy := false },
         { Ip := "10.0.0.3", Healthy := true }] :=
  ⟨by decide,
    c7_pagination_total "g" "svc"
      [{ Ip := "10.0.0.1", Healthy := true },
       { Ip := "10.0.0.2", Healthy := false },
       { Ip := "10.0.0.3", Healthy := true }] 2 (by decide)⟩

/-- C10: the subscription callback translates every backend record with
`Healthy` hard-wired to `true` (while copying `Enable`), whereas
`GetInstances` copies both `Enable` and `Healthy` from the backend record. -/
theorem c10_subscribe_healthy_constant (group serviceName : String) :
    (∀ ins : NacosModelInstance,
      (subscribeCallbackTranslate group serviceName ins).Healthy = true ∧
      (subscribeCallbackTranslate group serviceName ins).Enable = ins.Enable ∧
      (getInstancesTranslate group serviceName ins).Healthy = ins.Healthy ∧
      (getInstancesTranslate group serviceName ins).Enable = ins.Enable) ∧
    ∀ recs : List NacosModelInstance,
      (subscribeCallbackInstances group serviceName recs).all
        (fun i => i.Healthy) = true := by
  refine ⟨fun ins => ⟨rfl, rfl, rfl, rfl⟩, ?_⟩
  intro recs
  rw [List.all_eq_true]
  intro i hi
  simp only [subscribeCallbackInstances, List.mem_map] at hi
  obtain ⟨x, _, hx⟩ := hi
  rw [← hx]
  rfl

/-! ## Mesh rewrite (config/reference_config.go)

Constants `TRIPLE`, `SVC`, the env keys and defaults follow the spec (§4.2
step 6, §6 environment variables); `DefaultMeshPort`'s numeric value is not
given by the spec and is taken as 80 (it does not matter for the claims). -/

def TRIPLE : String := "tri"

def SVC : String := ".svc."

def DefaultMeshPort : Int := 80

def PodNamespaceEnvKey : String := "POD_NAMESPACE"

def DefaultNamespace : String := "default"

def ClusterDomainKey : String := "CLUSTER_DOMAIN"

def DefaultClusterDomain : String := "cluster.local"

def RegistryProtocol : String := "registry"

def ServiceRegistryProtocol : String := "service-discovery-registry"

def ClusterKeyFailover : String := "failover"

def ClusterKeyZoneAware : String := "zoneAware"

def ClusterKeyAdaptiveService : String := "adaptivesvc"

def LoadBalanceKeyP2C : String := "p2c"

/-- The process environment as seen by `os.LookupEnv`. -/
structure OsEnv where
  lookupEnv : String → Option String

/-- `getEnv(key, fallback)`. -/
def getEnv (env : OsEnv) (key fallback : String) : String :=
  (env.lookupEnv key).getD fallback

/-- The `ReferenceConfig` fields driving `Refer`'s panic behaviour and the
mesh rewrite (other fields feed collaborators that are out of scope). -/
structure ReferCfg where
  URL : String := ""
  Protocol : String := ""
  ProvidedBy : String := ""
  MeshProviderPort : Int := 0
  MeshEnabled : Bool := false
  AdaptiveService : Bool := false
  Cluster : String := ""
  Loadbalance : String := ""
  deriving Repr

inductive MeshPanic where
  | protocolNotTriple (p : String)
  | providedByEmpty
  deriving Repr, DecidableEq

/-- `updateOrCreateMeshURL`: no-op unless consumer mesh mode is enabled; then
protocol must be triple and provided-by non-empty (else panic), and the URL is
rewritten to the synthesized in-mesh DNS address. -/
def updateOrCreateMeshURL (env : OsEnv) (rc : ReferCfg) :
    Except MeshPanic ReferCfg :=
  if !rc.MeshEnabled then .ok rc
  else if rc.Protocol ≠ TRIPLE then .error (.protocolNotTriple rc.Protocol)
  else if rc.ProvidedBy = "" then .error .providedByEmpty
  else
    let podNamespace := getEnv env PodNamespaceEnvKey DefaultNamespace
    let clusterDomain := getEnv env ClusterDomainKey DefaultClusterDomain
    let meshPort : Int :=
      if rc.MeshProviderPort > 0 then rc.MeshProviderPort else DefaultMeshPort
    .ok { rc with
      URL := "tri://" ++ rc.ProvidedBy ++ "." ++ podNamespace ++ SVC ++
        clusterDomain ++ ":" ++ toString meshPort }

/-- C5: with mesh enabled, protocol triple and a non-empty provided-by, the
rewritten URL string is exactly
`tri://<provided_by>.<podNamespace>.svc.<clusterDomain>:<port>`, where the
namespace and domain come from `POD_NAMESPACE` (default `default`) and
`CLUSTER_DOMAIN` (default `cluster.local`), and the port is
`MeshProviderPort` when positive, else the built-in default mesh port. -/
theorem c5_mesh_url (env : OsEnv) (rc : ReferCfg)
    (h1 : rc.MeshEnabled = true) (h2 : rc.Protocol = TRIPLE)
    (h3 : rc.ProvidedBy ≠ "") :
    updateOrCreateMeshURL env rc = .ok { rc with
      URL := "tri://" ++ rc.ProvidedBy ++ "." ++
        ((env.lookupEnv PodNamespaceEnvKey).getD "default") ++ ".svc." ++
        ((env.lookupEnv ClusterDomainKey).getD "cluster.local") ++ ":" ++
        toString (if rc.MeshProviderPort > 0 then rc.MeshProviderPort
          else DefaultMeshPort) } := by
  unfold updateOrCreateMeshURL getEnv
  simp [h1, h2, h3, SVC, DefaultNamespace, DefaultClusterDomain]

/-- C5 witness: `POD_NAMESPACE=ns1`, provided-by `svc-a`, no explicit mesh
provider port. -/
theorem c5_mesh_url_witness :
    updateOrCreateMeshURL
        ⟨fun k => if k = "POD_NAMESPACE" then some "ns1" else none⟩
        { Protocol := "tri", ProvidedBy := "svc-a", MeshEnabled := true } =
      .ok { Protocol := "tri", ProvidedBy := "svc-a", MeshEnabled := true,
            URL := "tri://svc-a.ns1.svc.cluster.local:80" } := by
  have h := c5_mesh_url
    ⟨fun k => if k = "POD_NAMESPACE" then some "ns1" else none⟩
    { Protocol := "tri", ProvidedBy := "svc-a", MeshEnabled := true }
    rfl rfl (by decide)
  rw [h]
  rfl

/-! ## NewURL / URL.String: the parse and format pipeline

`NewURL` runs `url.QueryUnescape` on the whole input, prepends a scheme when
the string has no `//`, then `url.Parse`, `url.ParseQuery` on the raw query,
and `net.SplitHostPort` on the host.  `URL.String` formats
`proto://ip:port path ? params.Encode()`.  The Go standard-library pieces are
modelled for ASCII inputs (Go operates on bytes; multi-byte runes inside
percent-escapes are not modelled), without IPv6 bracket hosts and opaque
(`scheme:opaque`) forms, which the embedded code never produces. -/

def hexVal (c : Char) : Option Nat :=
  if '0' ≤ c ∧ c ≤ '9' then some (c.toNat - 48)
  else if 'a' ≤ c ∧ c ≤ 'f' then some (c.toNat - 97 + 10)
  else if 'A' ≤ c ∧ c ≤ 'F' then some (c.toNat - 65 + 10)
  else none

/-- `url.QueryUnescape` on characters: decode `%XX`, map `+` to space, fail on
malformed escapes. -/
def goQueryUnescapeList : List Char → Option (List Char)
  | [] => some []
  | c :: rest =>
    if c = '%' then
      match rest with
      | a :: b :: rest2 =>
        match hexVal a, hexVal b, goQueryUnescapeList rest2 with
        | some x, some y, some r => some (Char.ofNat (16 * x + y) :: r)
        | _, _, _ => none
      | _ => none
    else if c = '+' then (goQueryUnescapeList rest).map (fun r => ' ' :: r)
    else (goQueryUnescapeList rest).map (fun r => c :: r)

/-- Percent-decoding in path mode (`+` is kept verbatim). -/
def goPathUnescapeList : List Char → Option (List Char)
  | [] => some []
  | c :: rest =>
    if c = '%' then
      match rest with
      | a :: b :: rest2 =>
        match hexVal a, hexVal b, goPathUnescapeList rest2 with
        | some x, some y, some r => some (Char.ofNat (16 * x + y) :: r)
        | _, _, _ => none
      | _ => none
    else (goPathUnescapeList rest).map (fun r => c :: r)

/-- ASCII lowercasing as `strings.ToLower` does on ASCII. -/
def asciiLower (c : Char) : Char :=
  if 'A' ≤ c ∧ c ≤ 'Z' then Char.ofNat (c.toNat + 32) else c

/-- Split at the first character satisfying `p`: the part before, and the part
after that character when present. -/
def spanUntil (p : Char → Bool) (l : List Char) :
    List Char × Option (List Char) :=
  match l.span (fun c => !(p c)) with
  | (pre, []) => (pre, none)
  | (pre, _ :: rest) => (pre, some rest)

/-- `url.getScheme`: an alpha-led run of `[a-zA-Z0-9+-.]` before a `:` is the
scheme; a leading `:` is an error; anything else means no scheme. -/
def getSchemeAux (orig : List Char) (acc : List Char) :
    List Char → Option (List Char × List Char)
  | [] => some ([], orig)
  | c :: rest =>
    if c.isAlpha then getSchemeAux orig (c :: acc) rest
    else if c.isDigit || c == '+' || c == '-' || c == '.' then
      if acc = [] then some ([], orig) else getSchemeAux orig (c :: acc) rest
    else if c = ':' then
      if acc = [] then none else some (acc.reverse, rest)
    else some ([], orig)

/-- The `url.URL` fields `NewURL` reads after `url.Parse`. -/
structure GoParsedURL where
  Scheme : String := ""
  Username : String := ""
  Password : String := ""
  Host : String := ""
  Path : String := ""
  RawQuery : String := ""
  deriving Repr, DecidableEq

def badHostChar (c : Char) : Bool :=
  c == ' ' || c == '<' || c == '>' || c == '"' || c == '[' || c == ']' ||
    c == '%' || c == '@'

/-- Non-bracketed host validation: no forbidden characters, and everything
after the last `:` (when present) must be digits (`validOptionalPort`). -/
def hostValid (host : List Char) : Bool :=
  !host.any badHostChar &&
    (if host.any (fun c => c == ':') then
      ((host.reverse.span (fun c => !(c == ':'))).1).all (fun c => c.isDigit)
    else true)

/-- `url.Parse`, restricted as described in the section comment. -/
def goUrlParseList (l : List Char) : Option GoParsedURL :=
  if l.any (fun c => c.toNat < 32 || c.toNat == 127) then none
  else
    let beforeFrag := (spanUntil (fun c => c == '#') l).1
    match getSchemeAux beforeFrag [] beforeFrag with
    | none => none
    | some (schemeChars, rest) =>
      let scheme := schemeChars.map asciiLower
      let restQ := spanUntil (fun c => c == '?') rest
      let rest1 := restQ.1
      let rawQuery := (restQ.2).getD []
      if rest1.take 2 = ['/', '/'] then
        let rest2 := rest1.drop 2
        let authSplit := rest2.span (fun c => !(c == '/'))
        let authority := authSplit.1
        let rawPath := authSplit.2
        let userinfoHost : Option (List Char) × List Char :=
          if authority.any (fun c => c == '@') then
            let revSplit := authority.reverse.span (fun c => !(c == '@'))
            ((revSplit.2.drop 1).reverse, revSplit.1.reverse)
          else (none, authority)
        let host := userinfoHost.2
        if hostValid host then
          let userPass : List Char × List Char :=
            match userinfoHost.1 with
            | none => ([], [])
            | some ui =>
              let s := spanUntil (fun c => c == ':') ui
              (s.1, (s.2).getD [])
          match goPathUnescapeList rawPath with
          | none => none
          | some path =>
            some { Scheme := String.mk scheme
                   Username := String.mk userPass.1
                   Password := String.mk userPass.2
                   Host := String.mk host
                   Path := String.mk path
                   RawQuery := String.mk rawQuery }
        else none
      else
        match goPathUnescapeList rest1 with
        | none => none
        | some path =>
          some { Scheme := String.mk scheme
                 Path := String.mk (if rest1.take 1 = ['/'] then path else [])
                 RawQuery := String.mk rawQuery }

/-- Split a character list on a separator character. -/
def splitOnChar (sep : Char) : List Char → List (List Char)
  | [] => [[]]
  | x :: rest =>
    let r := splitOnChar sep rest
    if x == sep then [] :: r
    else
      match r with
      | [] => [[x]]
      | h :: t => (x :: h) :: t

/-- `url.Values.Add`: append the value to the key's slice. -/
def valuesAdd (ps : Values) (k v : String) : Values :=
  if ps.any (fun e => e.1 == k) then
    ps.map (fun e => if e.1 == k then (e.1, e.2 ++ [v]) else e)
  else ps ++ [(k, [v])]

/-- One `key[=value]` pair of a query string. -/
def parseQueryPair (seg : List Char) : Option (String × String) :=
  if seg.any (fun c => c == ';') then none
  else
    let s := spanUntil (fun c => c == '=') seg
    match goQueryUnescapeList s.1, goQueryUnescapeList ((s.2).getD []) with
    | some k, some v => some (String.mk k, String.mk v)
    | _, _ => none

/-- One step of `ParseQuery`'s loop over `&`-separated segments. -/
def parseQueryStep (acc : Values) (seg : List Char) : Option Values :=
  if seg = [] then some acc
  else
    match parseQueryPair seg with
    | none => none
    | some kv =>
      if kv.1 = "" then some acc else some (valuesAdd acc kv.1 kv.2)

/-- `url.ParseQuery`: split on `&`, skip empty keys, unescape keys and
values; any error (a `;` separator or a bad escape) fails the whole parse,
as `NewURL` propagates the error. -/
def goParseQueryList (q : List Char) : Option Values :=
  if q = [] then some []
  else (splitOnChar '&' q).foldlM parseQueryStep []

def hexDigitUpper (n : Nat) : Char :=
  if n < 10 then Char.ofNat (48 + n) else Char.ofNat (65 + n - 10)

def unreservedQueryChar (c : Char) : Bool :=
  c.isAlphanum || c == '-' || c == '_' || c == '.' || c == '~'

/-- `url.QueryEscape` on one character (ASCII bytes; a space becomes `+`). -/
def goQueryEscapeChar (c : Char) : List Char :=
  if unreservedQueryChar c then [c]
  else if c = ' ' then ['+']
  else ['%', hexDigitUpper (c.toNat / 16), hexDigitUpper (c.toNat % 16)]

def goQueryEscape (s : String) : String :=
  String.mk (s.data.flatMap goQueryEscapeChar)

/-- Byte-wise (`sort.Strings`) lexicographic comparison; for ASCII this is
codepoint order. -/
def charListLe : List Char → List Char → Bool
  | [], _ => true
  | _ :: _, [] => false
  | a :: as, b :: bs =>
    if a.toNat < b.toNat then true
    else if b.toNat < a.toNat then false
    else charListLe as bs

def keyLe (a b : String) : Bool :=
  charListLe a.data b.data

/-- Insertion into a key-sorted association list. -/
def insertSortedKey (e : String × List String) : Values → Values
  | [] => [e]
  | f :: rest =>
    if keyLe e.1 f.1 then e :: f :: rest else f :: insertSortedKey e rest

/-- Sort by key (insertion sort; a Go map's keys are distinct, so the sorted
sequence `sort.Strings` produces is the unique sorted permutation). -/
def sortByKey (ps : Values) : Values :=
  ps.foldr insertSortedKey []

/-- Join segments with a separator character (`strings.Builder` with `&`
between pairs). -/
def joinSep (sep : Char) : List (List Char) → List Char
  | [] => []
  | [p] => p
  | p :: rest => p ++ sep :: joinSep sep rest

/-- `url.Values.Encode` at the character level: keys sorted, each value
emitted as `key=value`, pairs joined by `&`. -/
def valuesEncodeList (ps : Values) : List Char :=
  joinSep '&'
    ((sortByKey ps).flatMap (fun e =>
      e.2.map (fun v =>
        (e.1.data.flatMap goQueryEscapeChar) ++ '=' ::
          (v.data.flatMap goQueryEscapeChar))))

/-- `url.Values.Encode`. -/
def valuesEncode (ps : Values) : String :=
  String.mk (valuesEncodeList ps)

/-- `URL.String()`. -/
def URL.String (c : URL) : String :=
  if c.Username.length = 0 ∧ c.Password.length = 0 then
    c.Protocol ++ "://" ++ c.Ip ++ ":" ++ c.Port ++ c.Path ++ "?" ++
      valuesEncode c.params
  else
    c.Protocol ++ "://" ++ c.Username ++ ":" ++ c.Password ++ "@" ++ c.Ip ++
      ":" ++ c.Port ++ c.Path ++ "?" ++ valuesEncode c.params

/-- `strings.Trim(s, " ")`. -/
def trimSpaces (l : List Char) : List Char :=
  ((l.dropWhile (fun c => c == ' ')).reverse.dropWhile (fun c => c == ' ')).reverse

/-- `net.SplitHostPort` for non-bracketed hosts: split at the last colon; no
colon or a colon inside the host part is an error. -/
def goSplitHostPort (hostport : List Char) : Option (List Char × List Char) :=
  if hostport.any (fun c => c == '[' || c == ']') then none
  else
    match hostport.reverse.span (fun c => !(c == ':')) with
    | (_, []) => none
    | (revPort, _ :: revHost) =>
      if revHost.any (fun c => c == ':') then none
      else some (revHost.reverse, revPort.reverse)

/-- The host loop of `NewURL`: the first comma-separated entry containing a
colon is split into ip and port; a split failure fails `NewURL`; no entry
with a colon leaves ip and port empty. -/
def newURLHostLoop : List (List Char) → Option (Option (List Char × List Char))
  | [] => some none
  | loc :: rest =>
    let loc := trimSpaces loc
    if loc.any (fun c => c == ':') then
      match goSplitHostPort loc with
      | none => none
      | some ipPort => some (some ipPort)
    else newURLHostLoop rest

/-- `strings.Contains` on character lists. -/
def listContainsSeq (pat : List Char) : List Char → Bool
  | [] => pat.isEmpty
  | c :: rest => pat.isPrefixOf (c :: rest) || listContainsSeq pat rest

/-- `NewURL(urlString)` with no options (as the resolver calls it): empty
input yields the empty URL; otherwise unescape, prepend `://` when the string
has no `//` (the option-built URL has an empty protocol), parse, parse the
query, extract ip and port, and append the registry group to the primitive
URL when present. -/
def NewURL (urlString : String) : Except String URL :=
  if urlString = "" then .ok {}
  else
    match goQueryUnescapeList urlString.data with
    | none => .error "URL.QueryUnescape"
    | some raw =>
      let raw :=
        if listContainsSeq ['/', '/'] raw then raw
        else ':' :: '/' :: '/' :: raw
      match goUrlParseList raw with
      | none => .error "URL.Parse"
      | some parsed =>
        match goParseQueryList parsed.RawQuery.data with
        | none => .error "URL.ParseQuery"
        | some params =>
          match newURLHostLoop (splitOnChar ',' parsed.Host.data) with
          | none => .error "net.SplitHostPort"
          | some ipPort =>
            let s : URL :=
              { PrimitiveURL := urlString
                Protocol := parsed.Scheme
                Username := parsed.Username
                Password := parsed.Password
                Location := parsed.Host
                Path := parsed.Path
                params := params
                Ip := String.mk ((ipPort.map Prod.fst).getD [])
                Port := String.mk ((ipPort.map Prod.snd).getD []) }
            let s :=
              if valuesGet s.params RegistryGroupKey ≠ "" then
                { s with PrimitiveURL :=
                    s.PrimitiveURL ++ "/" ++ valuesGet s.params RegistryGroupKey }
              else s
            .ok s

/-! ## Claim C8 -/

/-- Parse a string and format the result, the composition the round-trip
claim is about. -/
def stringOfNewURL (s : String) : Option String :=
  (NewURL s).toOption.map URL.String

/-- C8 counterexample: `tri://h:1/p?k=a%2526b` is well-formed (every parse in
the chain succeeds), yet formatting and re-parsing changes the string:
`NewURL` unescapes the whole input once and `ParseQuery` unescapes again, so
the `%26` produced by `Encode` for the parsed value `a&b` is re-read as a
parameter separator. -/
theorem c8_counterexample :
    stringOfNewURL "tri://h:1/p?k=a%2526b" = some "tri://h:1/p?k=a%26b" ∧
    stringOfNewURL "tri://h:1/p?k=a%26b" = some "tri://h:1/p?b=&k=a" ∧
    ("tri://h:1/p?b=&k=a" : String) ≠ "tri://h:1/p?k=a%26b" := by
  refine ⟨rfl, rfl, by decide⟩

/-! ### The escape-free fragment: character classes and basic lemmas -/

def safeSchemeChar (c : Char) : Bool :=
  c.isLower

def safeHostChar (c : Char) : Bool :=
  c.isAlphanum || c == '.' || c == '-'

def safePathChar (c : Char) : Bool :=
  c.isAlphanum || c == '.' || c == '-' || c == '_' || c == '~' || c == '/'

theorem goQueryUnescapeList_id (l : List Char)
    (h : ∀ c ∈ l, ¬ c = '%' ∧ ¬ c = '+') :
    goQueryUnescapeList l = some l := by
  induction l with
  | nil => rfl
  | cons c rest ih =>
    have hc := h c (List.mem_cons_self c rest)
    have hrest : ∀ x ∈ rest, ¬ x = '%' ∧ ¬ x = '+' := fun x hx =>
      h x (List.mem_cons_of_mem c hx)
    rw [goQueryUnescapeList.eq_def]
    simp only [if_neg hc.1, if_neg hc.2]
    rw [ih hrest]
    rfl

theorem goPathUnescapeList_id (l : List Char)
    (h : ∀ c ∈ l, ¬ c = '%') :
    goPathUnescapeList l = some l := by
  induction l with
  | nil => rfl
  | cons c rest ih =>
    have hc := h c (List.mem_cons_self c rest)
    have hrest : ∀ x ∈ rest, ¬ x = '%' := fun x hx =>
      h x (List.mem_cons_of_mem c hx)
    rw [goPathUnescapeList.eq_def]
    simp only [if_neg hc]
    rw [ih hrest]
    rfl

theorem asciiLower_of_not_upper (c : Char) (h : ¬ ('A' ≤ c ∧ c ≤ 'Z')) :
    asciiLower c = c := by
  unfold asciiLower
  rw [if_neg h]

theorem asciiLower_of_lower (c : Char) (h : c.isLower = true) :
    asciiLower c = c := by
  apply asciiLower_of_not_upper
  rintro ⟨h1, h2⟩
  simp [Char.isLower] at h
  have hv2 : c.toNat ≤ 90 := h2
  have hv1 : 97 ≤ c.toNat := h.1
  omega

theorem spanUntil_not_found (p : Char → Bool) (l : List Char)
    (h : ∀ c ∈ l, p c = false) :
    spanUntil p l = (l, none) := by
  unfold spanUntil
  rw [List.span_eq_take_drop]
  have ht : l.takeWhile (fun c => !(p c)) = l :=
    List.takeWhile_eq_self_iff.mpr (fun c hc => by simp [h c hc])
  have hd : l.dropWhile (fun c => !(p c)) = [] :=
    List.dropWhile_eq_nil_iff.mpr (fun c hc => by simp [h c hc])
  rw [ht, hd]

theorem takeWhile_append_stop (p : Char → Bool) (xs : List Char) (y : Char)
    (ys : List Char) (hxs : ∀ c ∈ xs, p c = true) (hy : p y = false) :
    (xs ++ y :: ys).takeWhile p = xs ∧
      (xs ++ y :: ys).dropWhile p = y :: ys := by
  induction xs with
  | nil =>
    constructor
    · rw [List.nil_append, List.takeWhile_cons_of_neg (by simp [hy])]
    · rw [List.nil_append, List.dropWhile_cons_of_neg (by simp [hy])]
  | cons x xs ih =>
    have hx := hxs x (List.mem_cons_self x xs)
    have hxs2 : ∀ c ∈ xs, p c = true := fun c hc =>
      hxs c (List.mem_cons_of_mem x hc)
    obtain ⟨iht, ihd⟩ := ih hxs2
    constructor
    · rw [List.cons_append, List.takeWhile_cons_of_pos hx, iht]
    · rw [List.cons_append, List.dropWhile_cons_of_pos hx, ihd]

theorem spanUntil_found (p : Char → Bool) (xs : List Char) (y : Char)
    (ys : List Char) (hxs : ∀ c ∈ xs, p c = false) (hy : p y = true) :
    spanUntil p (xs ++ y :: ys) = (xs, some ys) := by
  unfold spanUntil
  rw [List.span_eq_take_drop]
  obtain ⟨ht, hd⟩ := takeWhile_append_stop (fun c => !(p c)) xs y ys
    (fun c hc => by simp [hxs c hc]) (by simp [hy])
  rw [ht, hd]

theorem span_append_stop (p : Char → Bool) (xs : List Char) (y : Char)
    (ys : List Char) (hxs : ∀ c ∈ xs, p c = true) (hy : p y = false) :
    (xs ++ y :: ys).span p = (xs, y :: ys) := by
  rw [List.span_eq_take_drop]
  obtain ⟨ht, hd⟩ := takeWhile_append_stop p xs y ys hxs hy
  rw [ht, hd]

theorem span_no_stop (p : Char → Bool) (l : List Char)
    (h : ∀ c ∈ l, p c = true) :
    l.span p = (l, []) := by
  rw [List.span_eq_take_drop]
  rw [List.takeWhile_eq_self_iff.mpr h, List.dropWhile_eq_nil_iff.mpr h]

theorem getSchemeAux_alpha (orig rest : List Char) :
    ∀ (p acc : List Char), (∀ c ∈ p, c.isAlpha = true) → (acc = [] → p ≠ []) →
    getSchemeAux orig acc (p ++ ':' :: rest) = some (acc.reverse ++ p, rest) := by
  intro p
  induction p with
  | nil =>
    intro acc _ hne
    rw [List.nil_append, getSchemeAux]
    have hccolon : (':' : Char).isAlpha = false := by decide
    rw [if_neg (by simp [hccolon])]
    rw [if_neg (by decide)]
    rw [if_pos rfl]
    have hacc : ¬ acc = [] := fun hc => (hne hc) rfl
    rw [if_neg hacc]
    simp
  | cons d p2 ih =>
    intro acc hp _
    have hd : d.isAlpha = true := hp d (List.mem_cons_self d p2)
    have hp2 : ∀ c ∈ p2, c.isAlpha = true := fun c hc =>
      hp c (List.mem_cons_of_mem d hc)
    rw [List.cons_append, getSchemeAux, if_pos hd,
      ih (d :: acc) hp2 (by simp)]
    simp

theorem beq_false_of_toNat_ne (c d : Char) (h : ¬ c.toNat = d.toNat) :
    (c == d) = false := by
  simp only [beq_eq_false_iff_ne, ne_eq]
  exact fun hc => h (by rw [hc])

theorem charEq_false_of_toNat_ne (c d : Char) (h : ¬ c.toNat = d.toNat) :
    ¬ c = d :=
  fun hc => h (by rw [hc])

theorem safeSchemeChar_toNat (c : Char) (h : safeSchemeChar c = true) :
    97 ≤ c.toNat ∧ c.toNat ≤ 122 := by
  unfold safeSchemeChar at h
  simpa [Char.isLower] using h

theorem isAlphanum_toNat (c : Char) (h : c.isAlphanum = true) :
    (65 ≤ c.toNat ∧ c.toNat ≤ 90) ∨ (97 ≤ c.toNat ∧ c.toNat ≤ 122) ∨
      (48 ≤ c.toNat ∧ c.toNat ≤ 57) := by
  simp only [Char.isAlphanum, Bool.or_eq_true] at h
  rcases h with h | h
  · simp only [Char.isAlpha, Bool.or_eq_true] at h
    rcases h with h | h
    · exact Or.inl (by simpa [Char.isUpper] using h)
    · exact Or.inr (Or.inl (by simpa [Char.isLower] using h))
  · exact Or.inr (Or.inr (by simpa [Char.isDigit] using h))

theorem safeHostChar_toNat (c : Char) (h : safeHostChar c = true) :
    (65 ≤ c.toNat ∧ c.toNat ≤ 90) ∨ (97 ≤ c.toNat ∧ c.toNat ≤ 122) ∨
      (48 ≤ c.toNat ∧ c.toNat ≤ 57) ∨ c.toNat = 46 ∨ c.toNat = 45 := by
  unfold safeHostChar at h
  simp only [Bool.or_eq_true, beq_iff_eq] at h
  rcases h with (h | h) | h
  · rcases isAlphanum_toNat c h with h | h | h
    · exact Or.inl h
    · exact Or.inr (Or.inl h)
    · exact Or.inr (Or.inr (Or.inl h))
  · subst h
    exact Or.inr (Or.inr (Or.inr (Or.inl rfl)))
  · subst h
    exact Or.inr (Or.inr (Or.inr (Or.inr rfl)))

theorem safePathChar_toNat (c : Char) (h : safePathChar c = true) :
    (65 ≤ c.toNat ∧ c.toNat ≤ 90) ∨ (97 ≤ c.toNat ∧ c.toNat ≤ 122) ∨
      (48 ≤ c.toNat ∧ c.toNat ≤ 57) ∨ c.toNat = 46 ∨ c.toNat = 45 ∨
      c.toNat = 95 ∨ c.toNat = 126 ∨ c.toNat = 47 := by
  unfold safePathChar at h
  simp only [Bool.or_eq_true, beq_iff_eq] at h
  rcases h with ((((h | h) | h) | h) | h) | h
  · rcases isAlphanum_toNat c h with h | h | h
    · exact Or.inl h
    · exact Or.inr (Or.inl h)
    · exact Or.inr (Or.inr (Or.inl h))
  · subst h
    exact Or.inr (Or.inr (Or.inr (Or.inl rfl)))
  · subst h
    exact Or.inr (Or.inr (Or.inr (Or.inr (Or.inl rfl))))
  · subst h
    exact Or.inr (Or.inr (Or.inr (Or.inr (Or.inr (Or.inl rfl)))))
  · subst h
    exact Or.inr (Or.inr (Or.inr (Or.inr (Or.inr (Or.inr (Or.inl rfl))))))
  · subst h
    exact Or.inr (Or.inr (Or.inr (Or.inr (Or.inr (Or.inr (Or.inr rfl))))))

theorem unreservedQueryChar_toNat (c : Char) (h : unreservedQueryChar c = true) :
    (65 ≤ c.toNat ∧ c.toNat ≤ 90) ∨ (97 ≤ c.toNat ∧ c.toNat ≤ 122) ∨
      (48 ≤ c.toNat ∧ c.toNat ≤ 57) ∨ c.toNat = 45 ∨ c.toNat = 95 ∨
      c.toNat = 46 ∨ c.toNat = 126 := by
  unfold unreservedQueryChar at h
  simp only [Bool.or_eq_true, beq_iff_eq] at h
  rcases h with (((h | h) | h) | h) | h
  · rcases isAlphanum_toNat c h with h | h | h
    · exact Or.inl h
    · exact Or.inr (Or.inl h)
    · exact Or.inr (Or.inr (Or.inl h))
  · subst h
    exact Or.inr (Or.inr (Or.inr (Or.inl rfl)))
  · subst h
    exact Or.inr (Or.inr (Or.inr (Or.inr (Or.inl rfl))))
  · subst h
    exact Or.inr (Or.inr (Or.inr (Or.inr (Or.inr (Or.inl rfl)))))
  · subst h
    exact Or.inr (Or.inr (Or.inr (Or.inr (Or.inr (Or.inr rfl)))))

theorem digit_toNat (c : Char) (h : c.isDigit = true) :
    48 ≤ c.toNat ∧ c.toNat ≤ 57 := by
  simpa [Char.isDigit] using h

/-- A character admissible in the formatted string: every character class
that appears in a safe URL's string image. -/
def printableSafe (c : Char) : Prop :=
  (65 ≤ c.toNat ∧ c.toNat ≤ 90) ∨ (97 ≤ c.toNat ∧ c.toNat ≤ 122) ∨
    (48 ≤ c.toNat ∧ c.toNat ≤ 57) ∨ c.toNat = 45 ∨ c.toNat = 95 ∨
    c.toNat = 46 ∨ c.toNat = 126 ∨ c.toNat = 47 ∨ c.toNat = 58 ∨
    c.toNat = 63 ∨ c.toNat = 61 ∨ c.toNat = 38

theorem printableSafe_not_ctrl (c : Char) (h : printableSafe c) :
    (c.toNat < 32 || c.toNat == 127) = false := by
  simp only [Bool.or_eq_false_iff, decide_eq_false_iff_not, not_lt,
    beq_eq_false_iff_ne, ne_eq]
  unfold printableSafe at h
  omega

theorem printableSafe_ne_hash (c : Char) (h : printableSafe c) :
    (c == '#') = false := by
  apply beq_false_of_toNat_ne
  have h35 : ('#' : Char).toNat = 35 := rfl
  unfold printableSafe at h
  omega

theorem printableSafe_ne_pct (c : Char) (h : printableSafe c) :
    ¬ c = '%' := by
  apply charEq_false_of_toNat_ne
  have h37 : ('%' : Char).toNat = 37 := rfl
  unfold printableSafe at h
  omega

theorem printableSafe_ne_plus (c : Char) (h : printableSafe c) :
    ¬ c = '+' := by
  apply charEq_false_of_toNat_ne
  have h43 : ('+' : Char).toNat = 43 := rfl
  unfold printableSafe at h
  omega

/-! ### Encode-side identities on the safe fragment -/

theorem goQueryEscapeChar_id (c : Char) (h : unreservedQueryChar c = true) :
    goQueryEscapeChar c = [c] := by
  unfold goQueryEscapeChar
  rw [if_pos h]

theorem flatMap_escape_id (l : List Char)
    (h : ∀ c ∈ l, unreservedQueryChar c = true) :
    l.flatMap goQueryEscapeChar = l := by
  induction l with
  | nil => rfl
  | cons c rest ih =>
    rw [List.flatMap_cons, goQueryEscapeChar_id c (h c (List.mem_cons_self c rest)),
      ih (fun x hx => h x (List.mem_cons_of_mem c hx))]
    rfl

theorem sortByKey_eq_self (ps : Values)
    (h : ps.Pairwise (fun a b => keyLe a.1 b.1 = true ∧ a.1 ≠ b.1)) :
    sortByKey ps = ps := by
  induction ps with
  | nil => rfl
  | cons e rest ih =>
    have hrest := (List.pairwise_cons.mp h).2
    have hhead := (List.pairwise_cons.mp h).1
    show insertSortedKey e (sortByKey rest) = e :: rest
    rw [ih hrest]
    cases rest with
    | nil => rfl
    | cons f rest2 =>
      show (if keyLe e.1 f.1 then e :: f :: rest2 else
        f :: insertSortedKey e rest2) = e :: f :: rest2
      rw [if_pos (hhead f (List.mem_cons_self f rest2)).1]

theorem splitOnChar_free (sep : Char) (l : List Char)
    (h : ∀ c ∈ l, ¬ c = sep) :
    splitOnChar sep l = [l] := by
  induction l with
  | nil => rfl
  | cons c rest ih =>
    rw [splitOnChar]
    rw [ih (fun x hx => h x (List.mem_cons_of_mem c hx))]
    rw [if_neg (by simp [h c (List.mem_cons_self c rest)])]

theorem splitOnChar_append_sep (sep : Char) (p l : List Char)
    (h : ∀ c ∈ p, ¬ c = sep) :
    splitOnChar sep (p ++ sep :: l) = p :: splitOnChar sep l := by
  induction p with
  | nil =>
    rw [List.nil_append, splitOnChar, if_pos (by simp)]
  | cons c p2 ih =>
    rw [List.cons_append, splitOnChar,
      ih (fun x hx => h x (List.mem_cons_of_mem c hx)),
      if_neg (by simp [h c (List.mem_cons_self c p2)])]

theorem splitOnChar_joinSep (sep : Char) (parts : List (List Char))
    (hne : parts ≠ [])
    (hfree : ∀ p ∈ parts, ∀ c ∈ p, ¬ c = sep) :
    splitOnChar sep (joinSep sep parts) = parts := by
  induction parts with
  | nil => exact absurd rfl hne
  | cons p rest ih =>
    cases rest with
    | nil =>
      show splitOnChar sep p = [p]
      exact splitOnChar_free sep p (hfree p (List.mem_cons_self p []))
    | cons q rest2 =>
      show splitOnChar sep (p ++ sep :: joinSep sep (q :: rest2)) = p :: q :: rest2
      rw [splitOnChar_append_sep sep p _ (hfree p (List.mem_cons_self p _)),
        ih (by simp) (fun x hx => hfree x (List.mem_cons_of_mem p hx))]

theorem valuesAdd_new (acc : Values) (k v : String)
    (h : ∀ a ∈ acc, ¬ a.1 = k) :
    valuesAdd acc k v = acc ++ [(k, [v])] := by
  unfold valuesAdd
  rw [if_neg ?_]
  intro hc
  obtain ⟨a, ha, hk⟩ := List.any_eq_true.mp hc
  exact h a ha (by simpa using hk)

theorem valuesAdd_last (acc : Values) (k : String) (w : List String)
    (v : String) (h : ∀ a ∈ acc, ¬ a.1 = k) :
    valuesAdd (acc ++ [(k, w)]) k v = acc ++ [(k, w ++ [v])] := by
  unfold valuesAdd
  rw [if_pos (by simp [List.any_append])]
  rw [List.map_append]
  congr 1
  · have hm : ∀ a ∈ acc,
        (if (a.1 == k) = true then (a.1, a.2 ++ [v]) else a) = a := by
      intro a ha
      rw [if_neg (by simp [h a ha])]
    rw [List.map_congr_left hm, List.map_id']
  · simp

theorem string_mk_data (s : String) : String.mk s.data = s := rfl

theorem data_ne_nil_of_ne_empty (s : String) (h : s ≠ "") : s.data ≠ [] :=
  fun hc => h (String.ext hc)

theorem unreserved_ne_semi (c : Char) (h : unreservedQueryChar c = true) :
    (c == ';') = false := by
  apply beq_false_of_toNat_ne
  have h59 : (';' : Char).toNat = 59 := rfl
  have := unreservedQueryChar_toNat c h
  omega

theorem unreserved_ne_eqc (c : Char) (h : unreservedQueryChar c = true) :
    (c == '=') = false := by
  apply beq_false_of_toNat_ne
  have h61 : ('=' : Char).toNat = 61 := rfl
  have := unreservedQueryChar_toNat c h
  omega

theorem unreserved_ne_amp (c : Char) (h : unreservedQueryChar c = true) :
    ¬ c = '&' := by
  apply charEq_false_of_toNat_ne
  have h38 : ('&' : Char).toNat = 38 := rfl
  have := unreservedQueryChar_toNat c h
  omega

theorem unreserved_printable (c : Char) (h : unreservedQueryChar c = true) :
    printableSafe c := by
  unfold printableSafe
  have := unreservedQueryChar_toNat c h
  omega

theorem unreserved_not_escape (c : Char) (h : unreservedQueryChar c = true) :
    ¬ c = '%' ∧ ¬ c = '+' :=
  ⟨printableSafe_ne_pct c (unreserved_printable c h),
    printableSafe_ne_plus c (unreserved_printable c h)⟩

theorem parseQueryPair_seg (k v : String)
    (hk : ∀ c ∈ k.data, unreservedQueryChar c = true)
    (hv : ∀ c ∈ v.data, unreservedQueryChar c = true) :
    parseQueryPair (k.data ++ '=' :: v.data) = some (k, v) := by
  unfold parseQueryPair
  rw [if_neg ?_]
  · rw [spanUntil_found (fun c => c == '=') k.data '=' v.data
      (fun c hc => unreserved_ne_eqc c (hk c hc)) (by simp)]
    simp only [Option.getD_some]
    rw [goQueryUnescapeList_id k.data (fun c hc => unreserved_not_escape c (hk c hc)),
      goQueryUnescapeList_id v.data (fun c hc => unreserved_not_escape c (hv c hc))]
  · intro hc
    obtain ⟨c, hcm, hcs⟩ := List.any_eq_true.mp hc
    have hfalse : (c == ';') = false := by
      rcases List.mem_append.mp hcm with hcm | hcm
      · exact unreserved_ne_semi c (hk c hcm)
      · rcases List.mem_cons.mp hcm with hcm | hcm
        · subst hcm
          decide
        · exact unreserved_ne_semi c (hv c hcm)
    rw [hfalse] at hcs
    exact absurd hcs (by decide)

theorem parseQueryStep_seg (acc : Values) (k v : String) (hk0 : k ≠ "")
    (hk : ∀ c ∈ k.data, unreservedQueryChar c = true)
    (hv : ∀ c ∈ v.data, unreservedQueryChar c = true) :
    parseQueryStep acc (k.data ++ '=' :: v.data) = some (valuesAdd acc k v) := by
  unfold parseQueryStep
  rw [if_neg (by
    intro hc
    exact data_ne_nil_of_ne_empty k hk0 (List.append_eq_nil.mp hc).1)]
  rw [parseQueryPair_seg k v hk hv]
  show (if k = "" then some acc else some (valuesAdd acc k v)) =
    some (valuesAdd acc k v)
  rw [if_neg hk0]

/-- Safety of one parameter entry (key and values in the unreserved query
alphabet, non-empty key, at least one value). -/
def safeEntry (e : String × List String) : Prop :=
  e.1 ≠ "" ∧ (∀ c ∈ e.1.data, unreservedQueryChar c = true) ∧ e.2 ≠ [] ∧
    ∀ v ∈ e.2, ∀ c ∈ v.data, unreservedQueryChar c = true

theorem foldValues (k : String) (vs2 : List String) (hk0 : k ≠ "")
    (hk : ∀ c ∈ k.data, unreservedQueryChar c = true)
    (hvs : ∀ v ∈ vs2, ∀ c ∈ v.data, unreservedQueryChar c = true) :
    ∀ (acc : Values) (w : List String), (∀ a ∈ acc, ¬ a.1 = k) →
    List.foldlM parseQueryStep (acc ++ [(k, w)])
        (vs2.map (fun v => k.data ++ '=' :: v.data)) =
      some (acc ++ [(k, w ++ vs2)]) := by
  induction vs2 with
  | nil =>
    intro acc w _
    simp
  | cons v rest ih =>
    intro acc w hacc
    rw [List.map_cons, List.foldlM_cons,
      parseQueryStep_seg _ k v hk0 hk (hvs v (List.mem_cons_self v rest)),
      valuesAdd_last acc k w v hacc]
    show List.foldlM parseQueryStep (acc ++ [(k, w ++ [v])])
        (List.map (fun v => k.data ++ '=' :: v.data) rest) = _
    rw [ih (fun v2 hv2 => hvs v2 (List.mem_cons_of_mem v hv2)) acc (w ++ [v]) hacc]
    simp

theorem foldParams (ps : Values) :
    ∀ (acc : Values), (ps.map Prod.fst).Nodup →
    (∀ e ∈ ps, ∀ a ∈ acc, ¬ a.1 = e.1) → (∀ e ∈ ps, safeEntry e) →
    List.foldlM parseQueryStep acc
        (ps.flatMap (fun e => e.2.map (fun v => e.1.data ++ '=' :: v.data))) =
      some (acc ++ ps) := by
  induction ps with
  | nil =>
    intro acc _ _ _
    simp
  | cons e rest ih =>
    intro acc hnd hdisj hsafe
    obtain ⟨hk0, hk, hvne, hvs⟩ := hsafe e (List.mem_cons_self e rest)
    obtain ⟨k, vs⟩ := e
    rw [List.flatMap_cons, List.foldlM_append]
    cases hvs2 : vs with
    | nil => exact absurd hvs2 hvne
    | cons v vrest =>
      subst hvs2
      rw [List.map_cons, List.foldlM_cons]
      rw [parseQueryStep_seg acc k v hk0 hk
        (hvs v (List.mem_cons_self v vrest))]
      have hadd := valuesAdd_new acc k v
        (fun a ha => fun hc => hdisj (k, v :: vrest) (List.mem_cons_self _ rest) a ha hc)
      rw [hadd]
      show (List.foldlM parseQueryStep (acc ++ [(k, [v])])
          (List.map (fun v => k.data ++ '=' :: v.data) vrest) >>= fun acc2 =>
        List.foldlM parseQueryStep acc2
          (rest.flatMap (fun e => e.2.map (fun v => e.1.data ++ '=' :: v.data)))) = _
      rw [foldValues k vrest hk0 hk
        (fun v2 hv2 => hvs v2 (List.mem_cons_of_mem v hv2)) acc [v]
        (fun a ha => fun hc => hdisj (k, v :: vrest) (List.mem_cons_self _ rest) a ha hc)]
      show List.foldlM parseQueryStep (acc ++ [(k, [v] ++ vrest)])
          (rest.flatMap (fun e => e.2.map (fun v => e.1.data ++ '=' :: v.data))) = _
      have hnd2 : (rest.map Prod.fst).Nodup := (List.nodup_cons.mp hnd).2
      have hknotin : k ∉ rest.map Prod.fst := (List.nodup_cons.mp hnd).1
      rw [ih (acc ++ [(k, [v] ++ vrest)]) hnd2 ?_
        (fun e2 he2 => hsafe e2 (List.mem_cons_of_mem _ he2))]
      · simp
      · intro e2 he2 a ha
        rcases List.mem_append.mp ha with ha | ha
        · exact hdisj e2 (List.mem_cons_of_mem _ he2) a ha
        · have haeq : a = (k, [v] ++ vrest) := by simpa using ha
          subst haeq
          intro hc
          apply hknotin
          have hkeq : k = e2.1 := hc
          rw [hkeq]
          exact List.mem_map.mpr ⟨e2, he2, rfl⟩

theorem segsOf_escape_id (ps : Values) (hsafe : ∀ e ∈ ps, safeEntry e) :
    ps.flatMap (fun e => e.2.map (fun v =>
        (e.1.data.flatMap goQueryEscapeChar) ++ '=' ::
          (v.data.flatMap goQueryEscapeChar))) =
      ps.flatMap (fun e => e.2.map (fun v => e.1.data ++ '=' :: v.data)) := by
  induction ps with
  | nil => rfl
  | cons e rest ih =>
    obtain ⟨hk0, hk, hvne, hvs⟩ := hsafe e (List.mem_cons_self e rest)
    rw [List.flatMap_cons, List.flatMap_cons,
      ih (fun e2 he2 => hsafe e2 (List.mem_cons_of_mem _ he2))]
    congr 1
    apply List.map_congr_left
    intro v hv
    rw [flatMap_escape_id e.1.data hk, flatMap_escape_id v.data (hvs v hv)]

theorem mem_joinSep (sep : Char) (parts : List (List Char)) (c : Char)
    (h : c ∈ joinSep sep parts) :
    c = sep ∨ ∃ p ∈ parts, c ∈ p := by
  induction parts with
  | nil => cases h
  | cons p rest ih =>
    cases rest with
    | nil =>
      exact Or.inr ⟨p, List.mem_cons_self p [], h⟩
    | cons q rest2 =>
      rw [show joinSep sep (p :: q :: rest2) = p ++ sep :: joinSep sep (q :: rest2)
        from rfl] at h
      rcases List.mem_append.mp h with h | h
      · exact Or.inr ⟨p, List.mem_cons_self p _, h⟩
      · rcases List.mem_cons.mp h with h | h
        · exact Or.inl h
        · rcases ih h with h | ⟨p2, hp2, hcp⟩
          · exact Or.inl h
          · exact Or.inr ⟨p2, List.mem_cons_of_mem p hp2, hcp⟩

/-- Every character emitted by `Values.Encode` on safe parameters is an
unreserved character, `=`, or `&`. -/
theorem valuesEncodeList_chars (ps : Values)
    (hsorted : ps.Pairwise (fun a b => keyLe a.1 b.1 = true ∧ a.1 ≠ b.1))
    (hsafe : ∀ e ∈ ps, safeEntry e) (c : Char)
    (h : c ∈ valuesEncodeList ps) :
    unreservedQueryChar c = true ∨ c = '=' ∨ c = '&' := by
  rw [valuesEncodeList, sortByKey_eq_self ps hsorted, segsOf_escape_id ps hsafe] at h
  rcases mem_joinSep '&' _ c h with h | ⟨p, hp, hcp⟩
  · exact Or.inr (Or.inr h)
  · obtain ⟨e, he, hp2⟩ := List.mem_flatMap.mp hp
    obtain ⟨v, hv, hpe⟩ := List.mem_map.mp hp2
    obtain ⟨hk0, hk, hvne, hvs⟩ := hsafe e he
    rw [← hpe] at hcp
    rcases List.mem_append.mp hcp with hc2 | hc2
    · exact Or.inl (hk c hc2)
    · rcases List.mem_cons.mp hc2 with hc2 | hc2
      · exact Or.inr (Or.inl hc2)
      · exact Or.inl (hvs v hv c hc2)

theorem parts_amp_free (ps : Values) (hsafe : ∀ e ∈ ps, safeEntry e) :
    ∀ p ∈ ps.flatMap (fun e => e.2.map (fun v => e.1.data ++ '=' :: v.data)),
      ∀ c ∈ p, ¬ c = '&' := by
  intro p hp c hc
  obtain ⟨e, he, hp2⟩ := List.mem_flatMap.mp hp
  obtain ⟨v, hv, hpe⟩ := List.mem_map.mp hp2
  obtain ⟨hk0, hk, hvne, hvs⟩ := hsafe e he
  rw [← hpe] at hc
  rcases List.mem_append.mp hc with h2 | h2
  · exact unreserved_ne_amp c (hk c h2)
  · rcases List.mem_cons.mp h2 with h2 | h2
    · subst h2
      decide
    · exact unreserved_ne_amp c (hvs v hv c h2)

/-- `ParseQuery` is a left inverse of `Values.Encode` on safe parameters. -/
theorem goParseQuery_encode (ps : Values)
    (hsorted : ps.Pairwise (fun a b => keyLe a.1 b.1 = true ∧ a.1 ≠ b.1))
    (hsafe : ∀ e ∈ ps, safeEntry e) :
    goParseQueryList (valuesEncodeList ps) = some ps := by
  have hnd : (ps.map Prod.fst).Nodup :=
    List.Pairwise.map Prod.fst (fun a b hab => hab.2) hsorted
  rw [valuesEncodeList, sortByKey_eq_self ps hsorted, segsOf_escape_id ps hsafe]
  have hfree := parts_amp_free ps hsafe
  have hfold := foldParams ps [] hnd (fun e _ a ha => absurd ha (List.not_mem_nil a))
    hsafe
  cases ps with
  | nil => rfl
  | cons e rest =>
    obtain ⟨hk0, hk, hvne, hvs⟩ := hsafe e (List.mem_cons_self e rest)
    obtain ⟨k, vs⟩ := e
    cases vs with
    | nil => exact absurd rfl hvne
    | cons v vrest =>
      have hparts_eq : ((k, v :: vrest) :: rest).flatMap
          (fun e => e.2.map (fun v => e.1.data ++ '=' :: v.data)) =
        (k.data ++ '=' :: v.data) ::
          (vrest.map (fun v2 => k.data ++ '=' :: v2.data) ++
            rest.flatMap (fun e => e.2.map (fun v => e.1.data ++ '=' :: v.data))) := by
        simp [List.flatMap_cons]
      rw [hparts_eq]
      have hqne : joinSep '&' ((k.data ++ '=' :: v.data) ::
          (vrest.map (fun v2 => k.data ++ '=' :: v2.data) ++
            rest.flatMap (fun e => e.2.map (fun v => e.1.data ++ '=' :: v.data)))) ≠ [] := by
        cases htail : (vrest.map (fun v2 => k.data ++ '=' :: v2.data) ++
            rest.flatMap (fun e => e.2.map (fun v => e.1.data ++ '=' :: v.data))) with
        | nil =>
          show k.data ++ '=' :: v.data ≠ []
          simp
        | cons t ts =>
          show (k.data ++ '=' :: v.data) ++ '&' :: joinSep '&' (t :: ts) ≠ []
          simp
      unfold goParseQueryList
      rw [if_neg hqne]
      rw [splitOnChar_joinSep '&' _ (by simp) (by rw [← hparts_eq]; exact hfree)]
      rw [← hparts_eq]
      rw [hfold]
      simp

/-! ### Host, scheme and whole-string character facts -/

theorem safeSchemeChar_printable (c : Char) (h : safeSchemeChar c = true) :
    printableSafe c := by
  unfold printableSafe
  have := safeSchemeChar_toNat c h
  omega

theorem safeHostChar_printable (c : Char) (h : safeHostChar c = true) :
    printableSafe c := by
  unfold printableSafe
  have := safeHostChar_toNat c h
  omega

theorem safePathChar_printable (c : Char) (h : safePathChar c = true) :
    printableSafe c := by
  unfold printableSafe
  have := safePathChar_toNat c h
  omega

theorem digit_printable (c : Char) (h : c.isDigit = true) :
    printableSafe c := by
  unfold printableSafe
  have := digit_toNat c h
  omega

theorem safeSchemeChar_isAlpha (c : Char) (h : safeSchemeChar c = true) :
    c.isAlpha = true := by
  unfold safeSchemeChar at h
  simp [Char.isAlpha, h]

theorem safeHostChar_ne_qm (c : Char) (h : safeHostChar c = true) :
    (c == '?') = false := by
  apply beq_false_of_toNat_ne
  have h63 : ('?' : Char).toNat = 63 := rfl
  have := safeHostChar_toNat c h
  omega

theorem safeHostChar_ne_slash (c : Char) (h : safeHostChar c = true) :
    (c == '/') = false := by
  apply beq_false_of_toNat_ne
  have h47 : ('/' : Char).toNat = 47 := rfl
  have := safeHostChar_toNat c h
  omega

theorem safeHostChar_ne_at (c : Char) (h : safeHostChar c = true) :
    (c == '@') = false := by
  apply beq_false_of_toNat_ne
  have h64 : ('@' : Char).toNat = 64 := rfl
  have := safeHostChar_toNat c h
  omega

theorem safeHostChar_ne_colon (c : Char) (h : safeHostChar c = true) :
    (c == ':') = false := by
  apply beq_false_of_toNat_ne
  have h58 : (':' : Char).toNat = 58 := rfl
  have := safeHostChar_toNat c h
  omega

theorem safeHostChar_ne_comma (c : Char) (h : safeHostChar c = true) :
    (c == ',') = false := by
  apply beq_false_of_toNat_ne
  have h44 : (',' : Char).toNat = 44 := rfl
  have := safeHostChar_toNat c h
  omega

theorem safeHostChar_ne_space (c : Char) (h : safeHostChar c = true) :
    (c == ' ') = false := by
  apply beq_false_of_toNat_ne
  have h32 : (' ' : Char).toNat = 32 := rfl
  have := safeHostChar_toNat c h
  omega

theorem safeHostChar_ne_brackets (c : Char) (h : safeHostChar c = true) :
    (c == '[') = false ∧ (c == ']') = false := by
  constructor <;> apply beq_false_of_toNat_ne
  · have h91 : ('[' : Char).toNat = 91 := rfl
    have := safeHostChar_toNat c h
    omega
  · have h93 : (']' : Char).toNat = 93 := rfl
    have := safeHostChar_toNat c h
    omega

theorem safeHostChar_not_bad (c : Char) (h : safeHostChar c = true) :
    badHostChar c = false := by
  have hb := safeHostChar_toNat c h
  have h1 : (c == ' ') = false := by
    apply beq_false_of_toNat_ne
    have hx : (' ' : Char).toNat = 32 := rfl
    omega
  have h2 : (c == '<') = false := by
    apply beq_false_of_toNat_ne
    have hx : ('<' : Char).toNat = 60 := rfl
    omega
  have h3 : (c == '>') = false := by
    apply beq_false_of_toNat_ne
    have hx : ('>' : Char).toNat = 62 := rfl
    omega
  have h4 : (c == '"') = false := by
    apply beq_false_of_toNat_ne
    have hx : ('"' : Char).toNat = 34 := rfl
    omega
  have h5 : (c == '[') = false := by
    apply beq_false_of_toNat_ne
    have hx : ('[' : Char).toNat = 91 := rfl
    omega
  have h6 : (c == ']') = false := by
    apply beq_false_of_toNat_ne
    have hx : (']' : Char).toNat = 93 := rfl
    omega
  have h7 : (c == '%') = false := by
    apply beq_false_of_toNat_ne
    have hx : ('%' : Char).toNat = 37 := rfl
    omega
  have h8 : (c == '@') = false := by
    apply beq_false_of_toNat_ne
    have hx : ('@' : Char).toNat = 64 := rfl
    omega
  unfold badHostChar
  simp [h1, h2, h3, h4, h5, h6, h7, h8]

theorem digit_safeHost (c : Char) (h : c.isDigit = true) :
    safeHostChar c = true := by
  unfold safeHostChar
  simp [Char.isAlphanum, h]

theorem safePathChar_ne_qm (c : Char) (h : safePathChar c = true) :
    (c == '?') = false := by
  apply beq_false_of_toNat_ne
  have h63 : ('?' : Char).toNat = 63 := rfl
  have := safePathChar_toNat c h
  omega

theorem printableSafe_lit (c : Char)
    (h : c.toNat = 58 ∨ c.toNat = 47 ∨ c.toNat = 63 ∨ c.toNat = 61 ∨
      c.toNat = 38) :
    printableSafe c := by
  unfold printableSafe
  omega

theorem goSplitHostPort_ip_port (ip port : List Char)
    (hip : ∀ c ∈ ip, safeHostChar c = true)
    (hport : ∀ c ∈ port, c.isDigit = true) :
    goSplitHostPort (ip ++ ':' :: port) = some (ip, port) := by
  unfold goSplitHostPort
  rw [if_neg ?hbr]
  case hbr =>
    intro hc
    obtain ⟨c, hcm, hcs⟩ := List.any_eq_true.mp hc
    have hb : (c == '[') = false ∧ (c == ']') = false := by
      rcases List.mem_append.mp hcm with hcm | hcm
      · exact safeHostChar_ne_brackets c (hip c hcm)
      · rcases List.mem_cons.mp hcm with hcm | hcm
        · subst hcm
          exact ⟨by decide, by decide⟩
        · exact safeHostChar_ne_brackets c (digit_safeHost c (hport c hcm))
    rw [hb.1, hb.2] at hcs
    exact absurd hcs (by decide)
  have hrev : (ip ++ ':' :: port).reverse = port.reverse ++ ':' :: ip.reverse := by
    simp
  rw [hrev, span_append_stop (fun c => !(c == ':')) port.reverse ':' ip.reverse
    ?hp (by simp)]
  case hp =>
    intro c hc
    have hc2 : c ∈ port := List.mem_reverse.mp hc
    simp [safeHostChar_ne_colon c (digit_safeHost c (hport c hc2))]
  show (if ip.reverse.any (fun c => c == ':') then none else
    some (ip.reverse.reverse, port.reverse.reverse)) = some (ip, port)
  rw [if_neg ?hnc, List.reverse_reverse, List.reverse_reverse]
  case hnc =>
    intro hc
    obtain ⟨c, hcm, hcs⟩ := List.any_eq_true.mp hc
    rw [safeHostChar_ne_colon c (hip c (List.mem_reverse.mp hcm))] at hcs
    exact absurd hcs (by decide)

theorem hostValid_ip_port (ip port : List Char)
    (hip : ∀ c ∈ ip, safeHostChar c = true)
    (hport : ∀ c ∈ port, c.isDigit = true) :
    hostValid (ip ++ ':' :: port) = true := by
  unfold hostValid
  have hbad : (ip ++ ':' :: port).any badHostChar = false := by
    rw [List.any_eq_false]
    intro c hcm
    rcases List.mem_append.mp hcm with hcm | hcm
    · simp [safeHostChar_not_bad c (hip c hcm)]
    · rcases List.mem_cons.mp hcm with hcm | hcm
      · subst hcm
        decide
      · simp [safeHostChar_not_bad c (digit_safeHost c (hport c hcm))]
  have hcolon : (ip ++ ':' :: port).any (fun c => c == ':') = true := by
    apply List.any_eq_true.mpr
    exact ⟨':', by simp, by simp⟩
  have hrev : (ip ++ ':' :: port).reverse = port.reverse ++ ':' :: ip.reverse := by
    simp
  rw [hbad, hcolon, if_pos rfl, hrev,
    span_append_stop (fun c => !(c == ':')) port.reverse ':' ip.reverse
      ?hp (by simp)]
  case hp =>
    intro c hc
    have hc2 : c ∈ port := List.mem_reverse.mp hc
    simp [safeHostChar_ne_colon c (digit_safeHost c (hport c hc2))]
  show (true && port.reverse.all (fun c => c.isDigit)) = true
  rw [Bool.true_and, List.all_eq_true]
  intro c hc
  exact hport c (List.mem_reverse.mp hc)

theorem dropSpaces_id (l : List Char) (h : ∀ c ∈ l, ¬ c = ' ') :
    l.dropWhile (fun c => c == ' ') = l := by
  cases l with
  | nil => rfl
  | cons c rest =>
    rw [List.dropWhile_cons_of_neg]
    simp [h c (List.mem_cons_self c rest)]

theorem trimSpaces_id (l : List Char) (h : ∀ c ∈ l, ¬ c = ' ') :
    trimSpaces l = l := by
  unfold trimSpaces
  rw [dropSpaces_id l h,
    dropSpaces_id l.reverse (fun c hc => h c (List.mem_reverse.mp hc)),
    List.reverse_reverse]

theorem newURLHostLoop_single (ip port : List Char)
    (hip : ∀ c ∈ ip, safeHostChar c = true)
    (hport : ∀ c ∈ port, c.isDigit = true) :
    newURLHostLoop [ip ++ ':' :: port] = some (some (ip, port)) := by
  have hsp : ∀ c ∈ ip ++ ':' :: port, ¬ c = ' ' := by
    intro c hcm
    rcases List.mem_append.mp hcm with hcm | hcm
    · have := safeHostChar_ne_space c (hip c hcm)
      simp only [beq_eq_false_iff_ne, ne_eq] at this
      exact this
    · rcases List.mem_cons.mp hcm with hcm | hcm
      · subst hcm
        decide
      · have := safeHostChar_ne_space c (digit_safeHost c (hport c hcm))
        simp only [beq_eq_false_iff_ne, ne_eq] at this
        exact this
  simp only [newURLHostLoop]
  rw [trimSpaces_id _ hsp, if_pos ?hcl, goSplitHostPort_ip_port ip port hip hport]
  case hcl =>
    apply List.any_eq_true.mpr
    exact ⟨':', by simp, by simp⟩

theorem listContainsSeq_prefix (pat rest : List Char) (hne : pat ≠ []) :
    listContainsSeq pat (pat ++ rest) = true := by
  cases pat with
  | nil => exact absurd rfl hne
  | cons c cs =>
    rw [List.cons_append, listContainsSeq]
    have hpre : (c :: cs).isPrefixOf (c :: (cs ++ rest)) = true := by
      rw [List.isPrefixOf_iff_prefix, ← List.cons_append]
      exact ⟨rest, rfl⟩
    rw [hpre, Bool.true_or]

theorem listContainsSeq_mid (pat pre rest : List Char) (hne : pat ≠ []) :
    listContainsSeq pat (pre ++ (pat ++ rest)) = true := by
  induction pre with
  | nil =>
    rw [List.nil_append]
    exact listContainsSeq_prefix pat rest hne
  | cons c pre2 ih =>
    rw [List.cons_append, listContainsSeq, ih]
    simp

/-! ### The safe fragment of `URL` and the formatted-string decomposition -/

/-- URLs over the escape-free alphabet: lowercase scheme, alphanumeric/dot/
dash host, digit port, slash-led safe path, sorted safe query parameters, no
userinfo. On this fragment neither escaping nor unescaping changes any
character, so the format/parse round-trip can be exact. -/
def SafeURL (u : URL) : Prop :=
  u.Protocol ≠ "" ∧ (∀ c ∈ u.Protocol.data, safeSchemeChar c = true) ∧
    u.Username = "" ∧ u.Password = "" ∧
    (∀ c ∈ u.Ip.data, safeHostChar c = true) ∧
    (∀ c ∈ u.Port.data, c.isDigit = true) ∧
    (u.Path = "" ∨ u.Path.data.head? = some '/') ∧
    (∀ c ∈ u.Path.data, safePathChar c = true) ∧
    u.params.Pairwise (fun a b => keyLe a.1 b.1 = true ∧ a.1 ≠ b.1) ∧
    (∀ e ∈ u.params, safeEntry e)

theorem urlString_data (u : URL) (hu : u.Username = "") (hp : u.Password = "") :
    (u.String).data = u.Protocol.data ++ ':' :: '/' :: '/' ::
      (u.Ip.data ++ ':' :: (u.Port.data ++ (u.Path.data ++ '?' ::
        valuesEncodeList u.params))) := by
  rw [URL.String, if_pos (by rw [hu, hp]; exact ⟨rfl, rfl⟩)]
  have h1 : ("://" : String).data = [':', '/', '/'] := rfl
  have h2 : ((":" : String)).data = [':'] := rfl
  have h3 : ("?" : String).data = ['?'] := rfl
  have h4 : (valuesEncode u.params).data = valuesEncodeList u.params := rfl
  simp [String.data_append, h1, h2, h3, h4, List.append_assoc]

/-- `url.Parse` on a formatted safe URL string recovers scheme, host, path
and raw query exactly. -/
theorem goUrlParse_safe_lists (P I Q A E : List Char)
    (hP0 : P ≠ []) (hP : ∀ c ∈ P, safeSchemeChar c = true)
    (hI : ∀ c ∈ I, safeHostChar c = true)
    (hQ : ∀ c ∈ Q, c.isDigit = true)
    (hA0 : A = [] ∨ A.head? = some '/')
    (hA : ∀ c ∈ A, safePathChar c = true)
    (hE : ∀ c ∈ E, unreservedQueryChar c = true ∨ c = '=' ∨ c = '&') :
    goUrlParseList (P ++ ':' :: '/' :: '/' :: (I ++ ':' :: (Q ++ (A ++ '?' :: E)))) =
      some { Scheme := String.mk P, Username := "", Password := "",
             Host := String.mk (I ++ ':' :: Q), Path := String.mk A,
             RawQuery := String.mk E } := by
  have hEp : ∀ c ∈ E, printableSafe c := by
    intro c hc
    rcases hE c hc with h | h | h
    · exact unreserved_printable c h
    · subst h
      exact printableSafe_lit '=' (Or.inr (Or.inr (Or.inr (Or.inl rfl))))
    · subst h
      exact printableSafe_lit '&' (Or.inr (Or.inr (Or.inr (Or.inr rfl))))
  have hall : ∀ c ∈ P ++ ':' :: '/' :: '/' :: (I ++ ':' :: (Q ++ (A ++ '?' :: E))),
      printableSafe c := by
    intro c hc
    simp only [List.mem_append, List.mem_cons] at hc
    rcases hc with hc | rfl | rfl | rfl | hc | rfl | hc | hc | rfl | hc
    · exact safeSchemeChar_printable c (hP c hc)
    · exact printableSafe_lit ':' (Or.inl rfl)
    · exact printableSafe_lit '/' (Or.inr (Or.inl rfl))
    · exact printableSafe_lit '/' (Or.inr (Or.inl rfl))
    · exact safeHostChar_printable c (hI c hc)
    · exact printableSafe_lit ':' (Or.inl rfl)
    · exact digit_printable c (hQ c hc)
    · exact safePathChar_printable c (hA c hc)
    · exact printableSafe_lit '?' (Or.inr (Or.inr (Or.inl rfl)))
    · exact hEp c hc
  have hctrl : (P ++ ':' :: '/' :: '/' :: (I ++ ':' :: (Q ++ (A ++ '?' :: E)))).any
      (fun c => c.toNat < 32 || c.toNat == 127) = false := by
    rw [List.any_eq_false]
    intro c hc
    simp [printableSafe_not_ctrl c (hall c hc)]
  have spanHash : spanUntil (fun c => c == '#')
      (P ++ ':' :: '/' :: '/' :: (I ++ ':' :: (Q ++ (A ++ '?' :: E)))) =
      (P ++ ':' :: '/' :: '/' :: (I ++ ':' :: (Q ++ (A ++ '?' :: E))), none) :=
    spanUntil_not_found _ _ (fun c hc => printableSafe_ne_hash c (hall c hc))
  have halpha : ∀ c ∈ P, c.isAlpha = true := fun c hc =>
    safeSchemeChar_isAlpha c (hP c hc)
  have hscheme : getSchemeAux
      (P ++ ':' :: '/' :: '/' :: (I ++ ':' :: (Q ++ (A ++ '?' :: E)))) []
      (P ++ ':' :: '/' :: '/' :: (I ++ ':' :: (Q ++ (A ++ '?' :: E)))) =
      some (P, '/' :: '/' :: (I ++ ':' :: (Q ++ (A ++ '?' :: E)))) := by
    have := getSchemeAux_alpha
      (P ++ ':' :: '/' :: '/' :: (I ++ ':' :: (Q ++ (A ++ '?' :: E))))
      ('/' :: '/' :: (I ++ ':' :: (Q ++ (A ++ '?' :: E)))) P [] halpha
      (fun _ => hP0)
    simpa using this
  have hlow : ∀ c ∈ P, c.isLower = true := by
    intro c hc
    have := hP c hc
    unfold safeSchemeChar at this
    exact this
  have hmapP : P.map asciiLower = P := by
    have h1 : P.map asciiLower = P.map id :=
      List.map_congr_left (fun c hc => asciiLower_of_lower c (hlow c hc))
    rw [h1, List.map_id]
  have hQfree : spanUntil (fun c => c == '?')
      ('/' :: '/' :: (I ++ ':' :: (Q ++ (A ++ '?' :: E)))) =
      ('/' :: '/' :: (I ++ ':' :: (Q ++ A)), some E) := by
    have hsplit : '/' :: '/' :: (I ++ ':' :: (Q ++ (A ++ '?' :: E))) =
        ('/' :: '/' :: (I ++ ':' :: (Q ++ A))) ++ '?' :: E := by
      simp [List.append_assoc]
    rw [hsplit]
    apply spanUntil_found
    · intro c hc
      simp only [List.mem_cons, List.mem_append] at hc
      rcases hc with rfl | rfl | hc | rfl | hc | hc
      · decide
      · decide
      · exact safeHostChar_ne_qm c (hI c hc)
      · decide
      · exact safeHostChar_ne_qm c (digit_safeHost c (hQ c hc))
      · exact safePathChar_ne_qm c (hA c hc)
    · simp
  have hpre : ∀ c ∈ I ++ ':' :: Q, (fun c => !(c == '/')) c = true := by
    intro c hc
    simp only [List.mem_append, List.mem_cons] at hc
    rcases hc with hc | rfl | hc
    · simp [safeHostChar_ne_slash c (hI c hc)]
    · decide
    · simp [safeHostChar_ne_slash c (digit_safeHost c (hQ c hc))]
  have hSpanSlash : (I ++ ':' :: (Q ++ A)).span (fun c => !(c == '/')) =
      (I ++ ':' :: Q, A) := by
    rcases hA0 with rfl | hA0
    · rw [List.append_nil]
      exact span_no_stop _ _ hpre
    · cases A with
      | nil => simp at hA0
      | cons a t =>
        have ha : a = '/' := by simpa using hA0
        subst ha
        have hsplit : I ++ ':' :: (Q ++ '/' :: t) = (I ++ ':' :: Q) ++ '/' :: t := by
          simp [List.append_assoc]
        rw [hsplit]
        exact span_append_stop _ _ _ _ hpre (by decide)
  have hTake : List.takeWhile (fun c => !(c == '/')) (I ++ ':' :: (Q ++ A)) =
      I ++ ':' :: Q := by
    have h2 := congrArg Prod.fst hSpanSlash
    rwa [List.span_eq_take_drop] at h2
  have hDrop : List.dropWhile (fun c => !(c == '/')) (I ++ ':' :: (Q ++ A)) = A := by
    have h2 := congrArg Prod.snd hSpanSlash
    rwa [List.span_eq_take_drop] at h2
  have hAtI : ¬ ('@' ∈ I) := by
    intro hc
    have h2 := safeHostChar_ne_at '@' (hI _ hc)
    simp at h2
  have hAtQ : ¬ ('@' ∈ Q) := by
    intro hc
    have h2 := safeHostChar_ne_at '@' (digit_safeHost _ (hQ _ hc))
    simp at h2
  have hHv := hostValid_ip_port I Q hI hQ
  have hPu : goPathUnescapeList A = some A :=
    goPathUnescapeList_id A (fun c hc =>
      printableSafe_ne_pct c (safePathChar_printable c (hA c hc)))
  unfold goUrlParseList
  rw [if_neg (by simp [hctrl])]
  simp +decide [spanHash, hscheme, hmapP, hQfree, hTake, hDrop, hAtI, hAtQ, hHv,
    hPu]

/-- On a `SafeURL`, `url.Parse` of the formatted string recovers the URL's
fields exactly. -/
theorem goUrlParse_format (u : URL) (h : SafeURL u) :
    goUrlParseList ((u.String).data) = some
      { Scheme := u.Protocol, Username := "", Password := "",
        Host := String.mk (u.Ip.data ++ ':' :: u.Port.data),
        Path := u.Path, RawQuery := String.mk (valuesEncodeList u.params) } := by
  obtain ⟨hp0, hsch, huser, hpass, hip, hport, hshape, hpath, hsorted, hsafe⟩ := h
  rw [urlString_data u huser hpass]
  have hE : ∀ c ∈ valuesEncodeList u.params,
      unreservedQueryChar c = true ∨ c = '=' ∨ c = '&' :=
    fun c hc => valuesEncodeList_chars u.params hsorted hsafe c hc
  have hP0 : u.Protocol.data ≠ [] := data_ne_nil_of_ne_empty _ hp0
  have hA0 : u.Path.data = [] ∨ u.Path.data.head? = some '/' := by
    rcases hshape with h | h
    · left
      rw [h]
    · right
      exact h
  have hmain := goUrlParse_safe_lists u.Protocol.data u.Ip.data u.Port.data
    u.Path.data (valuesEncodeList u.params) hP0 hsch hip hport hA0 hpath hE
  rw [hmain, string_mk_data, string_mk_data]

theorem safeURL_string_printable (u : URL) (h : SafeURL u) :
    ∀ c ∈ (u.String).data, printableSafe c := by
  obtain ⟨hp0, hsch, huser, hpass, hip, hport, hshape, hpath, hsorted, hsafe⟩ := h
  rw [urlString_data u huser hpass]
  intro c hc
  simp only [List.mem_append, List.mem_cons] at hc
  rcases hc with hc | rfl | rfl | rfl | hc | rfl | hc | hc | rfl | hc
  · exact safeSchemeChar_printable c (hsch c hc)
  · exact printableSafe_lit ':' (Or.inl rfl)
  · exact printableSafe_lit '/' (Or.inr (Or.inl rfl))
  · exact printableSafe_lit '/' (Or.inr (Or.inl rfl))
  · exact safeHostChar_printable c (hip c hc)
  · exact printableSafe_lit ':' (Or.inl rfl)
  · exact digit_printable c (hport c hc)
  · exact safePathChar_printable c (hpath c hc)
  · exact printableSafe_lit '?' (Or.inr (Or.inr (Or.inl rfl)))
  · rcases valuesEncodeList_chars u.params hsorted hsafe c hc with h2 | h2 | h2
    · exact unreserved_printable c h2
    · subst h2
      exact printableSafe_lit '=' (Or.inr (Or.inr (Or.inr (Or.inl rfl))))
    · subst h2
      exact printableSafe_lit '&' (Or.inr (Or.inr (Or.inr (Or.inr rfl))))

/-- A concrete safe URL exercising the amended round-trip. -/
def c8url : URL :=
  { Protocol := "tri", Ip := "h", Port := "1", Path := "/p",
    params := [("k", ["a"])] }

/-- C8 (amended): on the escape-free fragment — lowercase scheme,
alphanumeric/dot/dash host, digit port, slash-led path over unreserved
characters, sorted query parameters over the unreserved alphabet, no
userinfo — `NewURL` of the formatted string succeeds and formatting the
parsed URL reproduces the string exactly, i.e. `String ∘ NewURL` fixes
`u.String`. (The claim as stated over all well-formed strings is refuted by
`c8_counterexample`: the double unescape in `NewURL`/`ParseQuery` breaks the
fixed point for strings with escape sequences.) -/
theorem c8_roundtrip_amended (u : URL) (h : SafeURL u) :
    stringOfNewURL (u.String) = some (u.String) := by
  have hall := safeURL_string_printable u h
  have hparse := goUrlParse_format u h
  obtain ⟨hp0, hsch, huser, hpass, hip, hport, hshape, hpath, hsorted, hsafe⟩ := h
  have hd := urlString_data u huser hpass
  have hne : u.String ≠ "" := by
    intro hc
    have h2 : (u.String).data = [] := by rw [hc]
    rw [hd] at h2
    simp at h2
  have hunesc : goQueryUnescapeList ((u.String).data) = some ((u.String).data) :=
    goQueryUnescapeList_id _ (fun c hc =>
      ⟨printableSafe_ne_pct c (hall c hc), printableSafe_ne_plus c (hall c hc)⟩)
  have hcontains : listContainsSeq ['/', '/'] ((u.String).data) = true := by
    rw [hd]
    have hsplit : u.Protocol.data ++ ':' :: '/' :: '/' ::
        (u.Ip.data ++ ':' :: (u.Port.data ++ (u.Path.data ++ '?' ::
          valuesEncodeList u.params))) =
        (u.Protocol.data ++ [':']) ++ (['/', '/'] ++
        (u.Ip.data ++ ':' :: (u.Port.data ++ (u.Path.data ++ '?' ::
          valuesEncodeList u.params)))) := by
      simp
    rw [hsplit]
    exact listContainsSeq_mid _ _ _ (by simp)
  have hquery : goParseQueryList (valuesEncodeList u.params) = some u.params :=
    goParseQuery_encode u.params hsorted hsafe
  have hsplitC : splitOnChar ',' (u.Ip.data ++ ':' :: u.Port.data) =
      [u.Ip.data ++ ':' :: u.Port.data] := by
    apply splitOnChar_free
    intro c hc
    simp only [List.mem_append, List.mem_cons] at hc
    rcases hc with hc | rfl | hc
    · have h2 := safeHostChar_ne_comma c (hip c hc)
      simp only [beq_eq_false_iff_ne, ne_eq] at h2
      exact h2
    · decide
    · have h2 := safeHostChar_ne_comma c (digit_safeHost c (hport c hc))
      simp only [beq_eq_false_iff_ne, ne_eq] at h2
      exact h2
  have hloop := newURLHostLoop_single u.Ip.data u.Port.data hip hport
  have hstr : ∀ pu loc, URL.String
      { Protocol := u.Protocol, Location := loc, Ip := u.Ip, Port := u.Port,
        PrimitiveURL := pu, params := u.params, Path := u.Path,
        Username := "", Password := "", Methods := [] } = u.String := by
    intro pu loc
    simp only [URL.String]
    rw [if_pos ⟨by decide, by decide⟩,
      if_pos ⟨by rw [huser]; decide, by rw [hpass]; decide⟩]
  by_cases hrg : valuesGet u.params RegistryGroupKey = ""
  · have hnew : NewURL (u.String) = Except.ok
        { Protocol := u.Protocol,
          Location := String.mk (u.Ip.data ++ ':' :: u.Port.data),
          Ip := u.Ip, Port := u.Port, PrimitiveURL := u.String,
          params := u.params, Path := u.Path, Username := "", Password := "",
          Methods := [] } := by
      simp [NewURL, hne, hunesc, hcontains, hparse, hquery, hsplitC, hloop,
        hrg, string_mk_data]
    unfold stringOfNewURL
    rw [hnew]
    simp only [Except.toOption, Option.map_some']
    rw [hstr]
  · have hnew : NewURL (u.String) = Except.ok
        { Protocol := u.Protocol,
          Location := String.mk (u.Ip.data ++ ':' :: u.Port.data),
          Ip := u.Ip, Port := u.Port,
          PrimitiveURL := u.String ++ "/" ++ valuesGet u.params RegistryGroupKey,
          params := u.params, Path := u.Path, Username := "", Password := "",
          Methods := [] } := by
      simp [NewURL, hne, hunesc, hcontains, hparse, hquery, hsplitC, hloop,
        hrg, string_mk_data]
    unfold stringOfNewURL
    rw [hnew]
    simp only [Except.toOption, Option.map_some']
    rw [hstr]

/-- Witness for C8 (amended) at a concrete safe URL. -/
theorem c8_amended_witness :
    SafeURL c8url ∧ stringOfNewURL (c8url.String) = some (c8url.String) :=
  ⟨by unfold SafeURL safeEntry; decide,
    c8_roundtrip_amended c8url (by unfold SafeURL safeEntry; decide)⟩

/-! ## Claim C3: Refer's panic behaviour

`Refer` is modelled down to its panic sites.  Collaborator results that the
code only consumes — `LoadRegistries`, `extension.GetCluster`'s registry of
cluster names, and the invokers' `GetURL()` — are supplied by a `ReferEnv`.
The interface-level `cfgURL` (built by `getURLMap`/`NewURLWithOptions`
without error handling), the merge of its parameters into direct URLs, the
`SubURL` assignment and the `peer` parameter mutate only URL parameters:
they cannot panic and never change a URL's `Protocol`, so they are omitted
from the model, which returns the parsed user URLs (or the registry URLs)
that drive cluster selection. -/

/-- Go regexp `\s` character class. -/
def isGoSpace (c : Char) : Bool :=
  c == ' ' || c == '\t' || c == '\n' || c == '\r' || c.toNat == 12

/-- `gxstrings.RegSplit(text, "\s*[;]+\s*")`: pieces between the
leftmost-greedy matches of whitespace-wrapped semicolon runs.  Each match
starts at the maximal whitespace run before a semicolon run and swallows the
trailing whitespace. -/
def splitSemisFuel : Nat → List Char → List (List Char)
  | 0, s => [s]
  | fuel + 1, s =>
    match spanUntil (fun c => c == ';') s with
    | (_, none) => [s]
    | (pre, some rest) =>
      ((pre.reverse.dropWhile isGoSpace).reverse) ::
        splitSemisFuel fuel
          ((rest.dropWhile (fun c => c == ';')).dropWhile isGoSpace)

def splitSemis (s : String) : List String :=
  (splitSemisFuel s.data.length s.data).map String.mk

/-- What the collaborators feeding `Refer` return: the process environment,
`LoadRegistries`' result, which cluster names `extension.GetCluster` knows,
and each invoker's `GetURL()` (`none` is Go's nil). -/
structure ReferEnv where
  osEnv : OsEnv
  registryURLs : List URL
  clusterKnown : String → Bool
  invokerGetURL : Nat → Option URL

/-- The five panic sites of `Refer` (including `updateOrCreateMeshURL`,
which it calls): the two mesh misconfigurations, an unparseable
user-supplied URL, an unknown cluster name, and the out-of-range
`invokers[0]` when no URL was produced at all. -/
inductive ReferPanic where
  | meshProtocolNotTriple (p : String)
  | meshProvidedByEmpty
  | invalidURL (s : String)
  | unknownCluster (name : String)
  | emptyInvokers
  deriving Repr, DecidableEq

/-- The adaptive-service override at the top of `Refer`. -/
def adaptiveOverride (rc : ReferCfg) : ReferCfg :=
  if rc.AdaptiveService then
    { rc with Cluster := ClusterKeyAdaptiveService,
              Loadbalance := LoadBalanceKeyP2C }
  else rc

/-- The user-URL loop: parse each piece in order, panicking at the first
parse failure (the Go loop appends one URL per piece). -/
def parseURLs : List String → Except ReferPanic (List URL)
  | [] => .ok []
  | s :: rest =>
    match NewURL s with
    | .error _ => .error (.invalidURL s)
    | .ok u =>
      match parseURLs rest with
      | .error e => .error e
      | .ok us => .ok (u :: us)

/-- `hitClu` for a single non-registry invoker: `failover` unless the
invoker's URL is non-nil, then its `cluster` parameter with default
`zoneAware`. -/
def hitCluOf (env : ReferEnv) : String :=
  match env.invokerGetURL 0 with
  | none => ClusterKeyFailover
  | some u => u.GetParam ClusterKey ClusterKeyZoneAware

/-- `ReferenceConfig.Refer`, to the depth of its panic sites; returns the
URL list `rc.urls` it built. -/
def refer (env : ReferEnv) (rc : ReferCfg) : Except ReferPanic (List URL) :=
  let rc := adaptiveOverride rc
  match updateOrCreateMeshURL env.osEnv rc with
  | .error (.protocolNotTriple p) => .error (.meshProtocolNotTriple p)
  | .error .providedByEmpty => .error .meshProvidedByEmpty
  | .ok rc2 =>
    match (if rc2.URL ≠ "" then parseURLs (splitSemis rc2.URL)
           else .ok env.registryURLs) with
    | .error e => .error e
    | .ok urls =>
      if urls.length = 1 then
        if rc2.URL ≠ "" then
          if env.clusterKnown (hitCluOf env) then .ok urls
          else .error (.unknownCluster (hitCluOf env))
        else .ok urls
      else
        match urls.reverse.find? (fun u => u.Protocol == RegistryProtocol) with
        | some _ =>
          if env.clusterKnown ClusterKeyZoneAware then .ok urls
          else .error (.unknownCluster ClusterKeyZoneAware)
        | none =>
          match urls with
          | [] => .error .emptyInvokers
          | _ :: _ =>
            if env.clusterKnown (hitCluOf env) then .ok urls
            else .error (.unknownCluster (hitCluOf env))

theorem parseURLs_error (l : List String) (e : ReferPanic)
    (h : parseURLs l = .error e) :
    ∃ s ∈ l, (∃ m, NewURL s = .error m) ∧ e = ReferPanic.invalidURL s := by
  induction l with
  | nil => simp [parseURLs] at h
  | cons s rest ih =>
    rw [parseURLs] at h
    cases hn : NewURL s with
    | error m =>
      rw [hn] at h
      simp only [Except.error.injEq] at h
      exact ⟨s, List.mem_cons_self s rest, ⟨m, hn⟩, h.symm⟩
    | ok u =>
      rw [hn] at h
      cases hr : parseURLs rest with
      | error e2 =>
        rw [hr] at h
        simp only [Except.error.injEq] at h
        subst h
        obtain ⟨s2, hs2, hm2, he2⟩ := ih hr
        exact ⟨s2, List.mem_cons_of_mem s hs2, hm2, he2⟩
      | ok us =>
        rw [hr] at h
        simp at h

theorem parseURLs_length (l : List String) (us : List URL)
    (h : parseURLs l = .ok us) : us.length = l.length := by
  induction l generalizing us with
  | nil =>
    simp [parseURLs] at h
    subst h
    rfl
  | cons s rest ih =>
    rw [parseURLs] at h
    cases hn : NewURL s with
    | error m =>
      rw [hn] at h
      simp at h
    | ok u =>
      rw [hn] at h
      cases hr : parseURLs rest with
      | error e2 =>
        rw [hr] at h
        simp at h
      | ok us2 =>
        rw [hr] at h
        simp only [Except.ok.injEq] at h
        subst h
        simp [ih us2 hr]

theorem splitSemis_ne_nil (s : String) : splitSemis s ≠ [] := by
  unfold splitSemis
  cases hf : s.data.length with
  | zero =>
    simp [splitSemisFuel]
  | succ n =>
    rw [splitSemisFuel]
    cases hs : spanUntil (fun c => c == ';') s.data with
    | mk pre rest =>
      cases rest with
      | none => simp
      | some r => simp

theorem meshURL_error_cases (env : OsEnv) (rc : ReferCfg) (e : MeshPanic)
    (h : updateOrCreateMeshURL env rc = .error e) :
    rc.MeshEnabled = true ∧
      ((∃ p, e = .protocolNotTriple p ∧ rc.Protocol = p ∧ p ≠ TRIPLE) ∨
        (e = .providedByEmpty ∧ rc.Protocol = TRIPLE ∧ rc.ProvidedBy = "")) := by
  unfold updateOrCreateMeshURL at h
  cases hm : rc.MeshEnabled with
  | false =>
    rw [if_pos (by rw [hm]; rfl)] at h
    simp at h
  | true =>
    rw [if_neg (by rw [hm]; simp)] at h
    by_cases h2 : rc.Protocol = TRIPLE
    · rw [if_neg (by simp [h2])] at h
      by_cases h3 : rc.ProvidedBy = ""
      · rw [if_pos h3] at h
        simp only [Except.error.injEq] at h
        exact ⟨rfl, Or.inr ⟨h.symm, h2, h3⟩⟩
      · rw [if_neg h3] at h
        simp at h
    · rw [if_pos h2] at h
      simp only [Except.error.injEq] at h
      exact ⟨rfl, Or.inl ⟨rc.Protocol, h.symm, rfl, h2⟩⟩

theorem adaptiveOverride_fields (rc : ReferCfg) :
    (adaptiveOverride rc).MeshEnabled = rc.MeshEnabled ∧
      (adaptiveOverride rc).Protocol = rc.Protocol ∧
      (adaptiveOverride rc).ProvidedBy = rc.ProvidedBy := by
  unfold adaptiveOverride
  by_cases ha : rc.AdaptiveService = true <;> simp [ha]

/-- C3 (amended): `Refer` panics in exactly five situations, not two — the
two mesh misconfigurations, a user-supplied URL piece that `NewURL` rejects,
an unknown cluster name (`zoneAware` or the invoker URL's `cluster`
parameter / `failover`), and the out-of-range `invokers[0]` when no
registry is configured and no URL was produced.  The spec's claim that an
unparseable user URL cannot panic is refuted by `c3_counterexample`. -/
theorem c3_refer_panics (env : ReferEnv) (rc : ReferCfg) (e : ReferPanic)
    (h : refer env rc = .error e) :
    (∃ p, e = .meshProtocolNotTriple p ∧ rc.MeshEnabled = true ∧
      rc.Protocol = p ∧ p ≠ TRIPLE) ∨
    (e = .meshProvidedByEmpty ∧ rc.MeshEnabled = true ∧
      rc.Protocol = TRIPLE ∧ rc.ProvidedBy = "") ∨
    (∃ s rc2, updateOrCreateMeshURL env.osEnv (adaptiveOverride rc) = .ok rc2 ∧
      rc2.URL ≠ "" ∧ s ∈ splitSemis rc2.URL ∧ (∃ m, NewURL s = .error m) ∧
      e = .invalidURL s) ∨
    (∃ n, e = .unknownCluster n ∧ env.clusterKnown n = false ∧
      (n = ClusterKeyZoneAware ∨ n = hitCluOf env)) ∨
    (e = .emptyInvokers ∧ (∃ rc2, updateOrCreateMeshURL env.osEnv
      (adaptiveOverride rc) = .ok rc2 ∧ rc2.URL = "") ∧
      env.registryURLs = []) := by
  obtain ⟨hae, hap, hav⟩ := adaptiveOverride_fields rc
  simp only [refer] at h
  split at h
  · rename_i p heq
    simp only [Except.error.injEq] at h
    subst h
    obtain ⟨hen, hcases⟩ := meshURL_error_cases env.osEnv (adaptiveOverride rc)
      (.protocolNotTriple p) heq
    left
    rcases hcases with ⟨p2, hp2, hprot, hne⟩ | ⟨hfalse, _⟩
    · have hp2e : p = p2 := by
        injection hp2
      subst hp2e
      exact ⟨p, rfl, hae ▸ hen, hap ▸ hprot, hne⟩
    · exact absurd hfalse (by simp)
  · rename_i heq
    simp only [Except.error.injEq] at h
    subst h
    obtain ⟨hen, hcases⟩ := meshURL_error_cases env.osEnv (adaptiveOverride rc)
      .providedByEmpty heq
    right
    left
    rcases hcases with ⟨p2, hp2, _, _⟩ | ⟨_, hprot, hpb⟩
    · exact absurd hp2 (by simp)
    · exact ⟨rfl, hae ▸ hen, hap ▸ hprot, hav ▸ hpb⟩
  · rename_i rc2 hm
    split at h
    · rename_i e2 heq
      simp only [Except.error.injEq] at h
      subst h
      by_cases hurl : rc2.URL = ""
      · rw [if_neg (by simp [hurl])] at heq
        simp at heq
      · rw [if_pos hurl] at heq
        obtain ⟨s, hs, hm2, he2⟩ := parseURLs_error _ _ heq
        right
        right
        left
        exact ⟨s, rc2, hm, hurl, hs, hm2, he2⟩
    · rename_i urls heq
      split at h
      · split at h
        · split at h
          · simp at h
          · rename_i hck
            simp only [Except.error.injEq] at h
            subst h
            simp only [Bool.not_eq_true] at hck
            right
            right
            right
            left
            exact ⟨hitCluOf env, rfl, hck, Or.inr rfl⟩
        · simp at h
      · split at h
        · split at h
          · simp at h
          · rename_i hck
            simp only [Except.error.injEq] at h
            subst h
            simp only [Bool.not_eq_true] at hck
            right
            right
            right
            left
            exact ⟨ClusterKeyZoneAware, rfl, hck, Or.inl rfl⟩
        · rename_i hfind
          split at h
          · rename_i hnil
            simp only [Except.error.injEq] at h
            subst h
            by_cases hurl : rc2.URL = ""
            · rw [if_neg (by simp [hurl])] at heq
              simp only [Except.ok.injEq] at heq
              right
              right
              right
              right
              exact ⟨rfl, ⟨rc2, hm, hurl⟩, heq⟩
            · rw [if_pos hurl] at heq
              have hlen := parseURLs_length _ _ heq
              have hne := splitSemis_ne_nil rc2.URL
              have h0 : (splitSemis rc2.URL).length = 0 := by
                simpa using hlen.symm
              exact absurd (List.length_eq_zero.mp h0) hne
          · split at h
            · simp at h
            · rename_i hck
              simp only [Except.error.injEq] at h
              subst h
              simp only [Bool.not_eq_true] at hck
              right
              right
              right
              left
              exact ⟨hitCluOf env, rfl, hck, Or.inr rfl⟩

/-- Environment with no env vars, no registries, every cluster known, nil
invoker URLs. -/
def c3env : ReferEnv :=
  { osEnv := ⟨fun _ => none⟩, registryURLs := [],
    clusterKnown := fun _ => true, invokerGetURL := fun _ => none }

/-- A reference config whose user URL does not parse (`%zz` is a bad
escape). -/
def c3rc : ReferCfg := { URL := "%zz" }

/-- C3 counterexample: with mesh disabled and every cluster known, `Refer`
still panics — on the unparseable user URL `%zz`, and (second input) on
`invokers[0]` when no registry produced any URL.  Neither panic is a mesh
misconfiguration or an unknown cluster name. -/
theorem c3_counterexample :
    refer c3env c3rc = .error (.invalidURL "%zz") ∧
    refer c3env ({} : ReferCfg) = .error .emptyInvokers ∧
    (∀ p, ReferPanic.invalidURL "%zz" ≠ ReferPanic.meshProtocolNotTriple p) ∧
    ReferPanic.invalidURL "%zz" ≠ ReferPanic.meshProvidedByEmpty ∧
    (∀ n, ReferPanic.invalidURL "%zz" ≠ ReferPanic.unknownCluster n) := by
  refine ⟨rfl, rfl, ?_, ?_, ?_⟩
  · intro p h
    simp at h
  · intro h
    simp at h
  · intro n h
    simp at h

/-- Witness for C3 (amended) at the bad-escape input. -/
theorem c3_amended_witness :
    refer c3env c3rc = .error (.invalidURL "%zz") ∧
    ((∃ p, ReferPanic.invalidURL "%zz" = .meshProtocolNotTriple p ∧
      c3rc.MeshEnabled = true ∧ c3rc.Protocol = p ∧ p ≠ TRIPLE) ∨
    (ReferPanic.invalidURL "%zz" = .meshProvidedByEmpty ∧
      c3rc.MeshEnabled = true ∧ c3rc.Protocol = TRIPLE ∧
      c3rc.ProvidedBy = "") ∨
    (∃ s rc2, updateOrCreateMeshURL c3env.osEnv (adaptiveOverride c3rc) =
        .ok rc2 ∧
      rc2.URL ≠ "" ∧ s ∈ splitSemis rc2.URL ∧ (∃ m, NewURL s = .error m) ∧
      ReferPanic.invalidURL "%zz" = .invalidURL s) ∨
    (∃ n, ReferPanic.invalidURL "%zz" = .unknownCluster n ∧
      c3env.clusterKnown n = false ∧
      (n = ClusterKeyZoneAware ∨ n = hitCluOf c3env)) ∨
    (ReferPanic.invalidURL "%zz" = .emptyInvokers ∧
      (∃ rc2, updateOrCreateMeshURL c3env.osEnv (adaptiveOverride c3rc) =
        .ok rc2 ∧ rc2.URL = "") ∧ c3env.registryURLs = [])) :=
  ⟨rfl, c3_refer_panics c3env c3rc (.invalidURL "%zz") rfl⟩

end DubboGo
